import Mathlib

/-!
Verification development for the ExclusionMs repository.

The repository holds two revisions of the core:
  * the legacy layout `src/exclusionms/` (`components.py`, `db.py`), and
  * the current layout `src/src/exclusionms/` (`components.py`, `db.py`),
the latter being the one exercised by the test suite (`tests/`).

Bound values are IEEE doubles in the source; every predicate of the core only
ever *compares* bounds (no arithmetic), so finite doubles are embedded as
rationals and the resolved values of optional bounds live in `XFloat`, the
order ℚ extended with `-inf` / `+inf` (the values produced by
`float('-inf')` / `float('inf')` in `src/src/exclusionms/components.py`).

Attributes of the current `ExclusionInterval` that the current `db.py` and the
test suite use but whose defining revision of `components.py` is not in the
repository snapshot (`exclusion`, `interval_uuid`, `generate_uuid`,
`is_bounded_by_quick`) are modelled from the spec; each such definition says so
in its doc comment.
-/

/-- Resolved bound values: a finite double (embedded as a rational) or one of
the two infinities produced by `float('-inf')` / `float('inf')`. -/
inductive XFloat where
  | negInf
  | val (q : ℚ)
  | posInf
deriving DecidableEq

/-- Strict `<` on resolved bound values; total order, no NaNs arise because all
inputs are finite doubles or the two injected infinities. -/
def XFloat.lt : XFloat → XFloat → Bool
  | _, .negInf => false
  | .negInf, _ => true
  | .posInf, _ => false
  | .val _, .posInf => true
  | .val a, .val b => decide (a < b)

/-- Python `a <= b` on resolved bound values; on a total order without NaNs
this is the negation of `b < a`. -/
def XFloat.le (x y : XFloat) : Bool := !XFloat.lt y x

/-- Source: `src/src/exclusionms/components.py`, `convert_min_bounds`
(lines 30-46): a null lower bound resolves to `float('-inf')`. -/
def convert_min_bounds : Option ℚ → XFloat
  | none => .negInf
  | some q => .val q

/-- Source: `src/src/exclusionms/components.py`, `convert_max_bounds`
(lines 49-65): a null upper bound resolves to `float('inf')`. -/
def convert_max_bounds : Option ℚ → XFloat
  | none => .posInf
  | some q => .val q

/-- Value of `sys.float_info.min`, the smallest positive normal double,
`2 ** (-1022)`. Used by the legacy revision's bound resolvers. -/
def float_info_min : ℚ := 1 / 2 ^ 1022

/-- Value of `sys.float_info.max`, the largest finite double,
`(2 ** 53 - 1) * 2 ** 971`. Used by the legacy revision's bound resolvers. -/
def float_info_max : ℚ := (2 ^ 53 - 1) * 2 ^ 971

/-- Source: `src/exclusionms/components.py`, `convert_min_bounds`
(lines 73-76, legacy revision): a null lower bound resolves to
`sys.float_info.min` (a tiny positive number, not an infinity). -/
def legacy_convert_min_bounds : Option ℚ → ℚ
  | none => float_info_min
  | some q => q

/-- Source: `src/exclusionms/components.py`, `convert_max_bounds`
(lines 79-82, legacy revision): a null upper bound resolves to
`sys.float_info.max`. -/
def legacy_convert_max_bounds : Option ℚ → ℚ
  | none => float_info_max
  | some q => q

/-- Charge test shared by `ExclusionPoint.is_bounded_by` and the current
revision's `ExclusionInterval.is_enveloped_by`: true when both charges are set
and differ (`x is not None and y is not None and x != y`). -/
def charge_mismatch : Option ℤ → Option ℤ → Bool
  | some x, some y => decide (x ≠ y)
  | _, _ => false

/-- Source: `src/src/exclusionms/components.py`, `ExclusionInterval`
(lines 68-85). Bounds are kept optional exactly as in the pydantic model.
The fields `exclusion` (polarity; spec §3: "polarity: one of
{EXCLUDE, INCLUDE}; default EXCLUDE", with `exclusion=True` meaning EXCLUDE as
in `tests/test_db.py`), `interval_uuid` (spec §3: the unique system-assigned
handle, embedded as a `Nat`) and `data` (spec §3: opaque payload) are fields of
the current revision of the class whose defining file is not in the snapshot;
they are modelled from the spec. -/
structure ExclusionInterval where
  interval_id : Option String
  charge : Option ℤ
  min_mass : Option ℚ
  max_mass : Option ℚ
  min_rt : Option ℚ
  max_rt : Option ℚ
  min_ook0 : Option ℚ
  max_ook0 : Option ℚ
  min_intensity : Option ℚ
  max_intensity : Option ℚ
  exclusion : Bool := true
  interval_uuid : Option ℕ := none
  data : Option String := none
deriving DecidableEq

/-- Source: `src/src/exclusionms/components.py`, `ExclusionPoint`
(lines 182-194). -/
structure ExclusionPoint where
  charge : Option ℤ := none
  mass : Option ℚ := none
  rt : Option ℚ := none
  ook0 : Option ℚ := none
  intensity : Option ℚ := none
deriving DecidableEq

/-- One dimension of `ExclusionPoint.is_bounded_by`: the point coordinate is
set and falls outside the half-open interval of resolved bounds
(`v < convert_min_bounds(lo) or v >= convert_max_bounds(hi)`). -/
def coord_outside (v : Option ℚ) (lo hi : Option ℚ) : Bool :=
  match v with
  | none => false
  | some q =>
      XFloat.lt (.val q) (convert_min_bounds lo) || XFloat.le (convert_max_bounds hi) (.val q)

/-- Source: `src/src/exclusionms/components.py`,
`ExclusionPoint.is_bounded_by` (lines 196-222): charge test, then the rt,
ook0, intensity and mass dimensions, each an early `return False` on failure
(here a conjunction of negations, in source order). -/
def ExclusionPoint.is_bounded_by (p : ExclusionPoint) (I : ExclusionInterval) : Bool :=
  !charge_mismatch p.charge I.charge &&
  !coord_outside p.rt I.min_rt I.max_rt &&
  !coord_outside p.ook0 I.min_ook0 I.max_ook0 &&
  !coord_outside p.intensity I.min_intensity I.max_intensity &&
  !coord_outside p.mass I.min_mass I.max_mass

/-- Modelled from the spec: the current revision's
`ExclusionPoint.is_bounded_by_quick`, called by
`MassIntervalTree.query_by_point` (`src/src/exclusionms/db.py` line 259), is
not in the snapshot; spec §4.4 specifies the `query_by_point` filter as
`p.is_bounded_by(I)`, so the quick variant is modelled as `is_bounded_by`. -/
def ExclusionPoint.is_bounded_by_quick (p : ExclusionPoint) (I : ExclusionInterval) : Bool :=
  p.is_bounded_by I

/-- One dimension of the current `ExclusionInterval.is_enveloped_by`: self's
resolved range sticks out of other's resolved range
(`min(self) < min(other) or max(self) > max(other)`). -/
def dim_not_enveloped (slo shi olo ohi : Option ℚ) : Bool :=
  XFloat.lt (convert_min_bounds slo) (convert_min_bounds olo) ||
  XFloat.lt (convert_max_bounds ohi) (convert_max_bounds shi)

/-- Source: `src/src/exclusionms/components.py`,
`ExclusionInterval.is_enveloped_by` (lines 87-113): the charge test only fires
when *both* charges are set and differ; then each continuous dimension must be
inside other's resolved range. -/
def ExclusionInterval.is_enveloped_by (s o : ExclusionInterval) : Bool :=
  !charge_mismatch s.charge o.charge &&
  !dim_not_enveloped s.min_mass s.max_mass o.min_mass o.max_mass &&
  !dim_not_enveloped s.min_rt s.max_rt o.min_rt o.max_rt &&
  !dim_not_enveloped s.min_ook0 s.max_ook0 o.min_ook0 o.max_ook0 &&
  !dim_not_enveloped s.min_intensity s.max_intensity o.min_intensity o.max_intensity

/-- Source: `src/src/exclusionms/components.py`, `ExclusionInterval.is_valid`
(lines 134-148): every dimension's resolved lower bound is at most its
resolved upper bound. -/
def ExclusionInterval.is_valid (I : ExclusionInterval) : Bool :=
  !XFloat.lt (convert_max_bounds I.max_mass) (convert_min_bounds I.min_mass) &&
  !XFloat.lt (convert_max_bounds I.max_rt) (convert_min_bounds I.min_rt) &&
  !XFloat.lt (convert_max_bounds I.max_ook0) (convert_min_bounds I.min_ook0) &&
  !XFloat.lt (convert_max_bounds I.max_intensity) (convert_min_bounds I.min_intensity)

/-- Modelled from the spec: `ExclusionInterval.generate_uuid` (called by
`MassIntervalTree.add`, `src/src/exclusionms/db.py` line 67) is not in the
snapshot; spec §3 says the handle is a unique system-generated identifier
assigned on insertion, so the generator is modelled as stamping the interval
with a fresh counter value supplied by the index. -/
def ExclusionInterval.generate_uuid (I : ExclusionInterval) (u : ℕ) : ExclusionInterval :=
  { I with interval_uuid := some u }

/-- Legacy dimension test of `ExclusionPoint.is_bounded_by`
(`src/exclusionms/components.py` lines 302-321); all resolved values are
finite there, so comparisons stay in ℚ. -/
def legacy_coord_outside (v : Option ℚ) (lo hi : Option ℚ) : Bool :=
  match v with
  | none => false
  | some q =>
      decide (q < legacy_convert_min_bounds lo) || decide (q ≥ legacy_convert_max_bounds hi)

/-- Source: `src/exclusionms/components.py`, `ExclusionPoint.is_bounded_by`
(lines 302-321, legacy revision): same structure as the current revision but
null bounds resolve to `sys.float_info.min` / `sys.float_info.max` and the
mass dimension is checked first. -/
def legacy_is_bounded_by (p : ExclusionPoint) (I : ExclusionInterval) : Bool :=
  !charge_mismatch p.charge I.charge &&
  !legacy_coord_outside p.mass I.min_mass I.max_mass &&
  !legacy_coord_outside p.rt I.min_rt I.max_rt &&
  !legacy_coord_outside p.ook0 I.min_ook0 I.max_ook0 &&
  !legacy_coord_outside p.intensity I.min_intensity I.max_intensity

/-- Legacy dimension test of `ExclusionInterval.is_enveloped_by`
(`src/exclusionms/components.py` lines 220-230). -/
def legacy_dim_not_enveloped (slo shi olo ohi : Option ℚ) : Bool :=
  decide (legacy_convert_min_bounds slo < legacy_convert_min_bounds olo) ||
  decide (legacy_convert_max_bounds shi > legacy_convert_max_bounds ohi)

/-- Source: `src/exclusionms/components.py`,
`ExclusionInterval.is_enveloped_by` (lines 215-232, legacy revision): its
charge test fires as soon as `other.charge` is set and `self.charge` differs
from it — in particular a null `self.charge` against a set `other.charge`
returns false. -/
def legacy_is_enveloped_by (s o : ExclusionInterval) : Bool :=
  !(o.charge.isSome && decide (s.charge ≠ o.charge)) &&
  !legacy_dim_not_enveloped s.min_mass s.max_mass o.min_mass o.max_mass &&
  !legacy_dim_not_enveloped s.min_rt s.max_rt o.min_rt o.max_rt &&
  !legacy_dim_not_enveloped s.min_ook0 s.max_ook0 o.min_ook0 o.max_ook0 &&
  !legacy_dim_not_enveloped s.min_intensity s.max_intensity o.min_intensity o.max_intensity

/-- Source: the `intervaltree` package's `Interval(begin, end, data)` as used
by `db.py`: a tree node holding the resolved mass range and the stored
`ExclusionInterval`. -/
structure MassInterval where
  lo : XFloat
  hi : XFloat
  data : ExclusionInterval
deriving DecidableEq

/-- Source: `src/src/exclusionms/db.py`, `get_mass_interval` (lines 24-36). -/
def get_mass_interval (I : ExclusionInterval) : MassInterval :=
  ⟨convert_min_bounds I.min_mass, convert_max_bounds I.max_mass, I⟩

/-- The `intervaltree` package's `Interval.is_null` (`begin >= end`); the tree
rejects null intervals on `add`. -/
def MassInterval.is_null (mi : MassInterval) : Bool := XFloat.le mi.hi mi.lo

/-- Lookup in the label index (`id_dict`): first bucket of the queried key,
empty when absent, mirroring `_get_intervals_by_id`
(`src/src/exclusionms/db.py` lines 158-170). -/
def dictFind : List (Option String × List MassInterval) → Option String → List MassInterval
  | [], _ => []
  | (k, b) :: rest, q => if k = q then b else dictFind rest q

/-- Python `set.add` on a label bucket. -/
def bucketAdd (b : List MassInterval) (mi : MassInterval) : List MassInterval :=
  if mi ∈ b then b else mi :: b

/-- Python `id_dict.setdefault(k, set()).add(mi)`. -/
def dictAddMem :
    List (Option String × List MassInterval) → Option String → MassInterval →
      List (Option String × List MassInterval)
  | [], k, mi => [(k, [mi])]
  | (k', b) :: rest, k, mi =>
      if k' = k then (k', bucketAdd b mi) :: rest else (k', b) :: dictAddMem rest k mi

/-- Python `id_dict[k].remove(mi)` followed by `id_dict.pop(k)` when the
bucket became empty (`src/src/exclusionms/db.py` lines 93-96; under the index
invariant the key is present and the bucket holds `mi`). -/
def dictRemoveMem :
    List (Option String × List MassInterval) → Option String → MassInterval →
      List (Option String × List MassInterval)
  | [], _, _ => []
  | (k', b) :: rest, k, mi =>
      if k' = k then
        if (b.erase mi).isEmpty then rest else (k', b.erase mi) :: rest
      else (k', b) :: dictRemoveMem rest k mi

/-- Lookup in the uuid index (`uuid_dict[u]`). -/
def uuidFind (d : List (Option ℕ × ExclusionInterval)) (u : Option ℕ) :
    Option ExclusionInterval :=
  (d.find? fun p => decide (p.1 = u)).map fun p => p.2

/-- Python dict assignment `uuid_dict[u] = I` (overwrites an existing key). -/
def uuidAssign (d : List (Option ℕ × ExclusionInterval)) (u : Option ℕ)
    (I : ExclusionInterval) : List (Option ℕ × ExclusionInterval) :=
  (u, I) :: d.filter fun p => decide (p.1 ≠ u)

/-- Python `uuid_dict.pop(u)`: `none` models the `KeyError` on a missing key. -/
def uuidPop (d : List (Option ℕ × ExclusionInterval)) (u : Option ℕ) :
    Option (List (Option ℕ × ExclusionInterval)) :=
  if d.any fun p => decide (p.1 = u) then some (d.filter fun p => decide (p.1 ≠ u)) else none

/-- The uuid phase of `MassIntervalTree.remove`
(`src/src/exclusionms/db.py` lines 98-99): sequential pops; a missing key
raises `KeyError` there, stopping the loop — the flag records success and the
returned dictionary keeps the pops made before the failure. -/
def uuidPopAll :
    List ExclusionInterval → List (Option ℕ × ExclusionInterval) →
      List (Option ℕ × ExclusionInterval) × Bool
  | [], d => (d, true)
  | I :: rest, d =>
      match uuidPop d I.interval_uuid with
      | none => (d, false)
      | some d' => uuidPopAll rest d'

/-- Source: `src/src/exclusionms/db.py`, `IntervalStatus` (lines 17-21). -/
inductive IntervalStatus where
  | NO_INTERVALS_FOUND
  | EXCLUDED
  | INCLUDED
  | EXCLUDED_INCLUDED
deriving DecidableEq

/-- Source: `src/src/exclusionms/db.py`, `MassIntervalTree` (lines 39-51):
the mass interval tree (a set of nodes, embedded as a duplicate-free list),
the label index `id_dict` (dict of sets), the handle index `uuid_dict`, and —
modelled from the spec — the state of the unique-handle generator
(spec §3: handles are unique for the lifetime of the index). -/
structure MassIntervalTree where
  interval_tree : List MassInterval := []
  id_dict : List (Option String × List MassInterval) := []
  uuid_dict : List (Option ℕ × ExclusionInterval) := []
  next_uuid : ℕ := 0
deriving DecidableEq

/-- A fresh `MassIntervalTree()`. -/
def emptyTree : MassIntervalTree := {}

/-- Source: `src/src/exclusionms/db.py`, `MassIntervalTree.add`
(lines 53-72): reject a null label, stamp a fresh uuid, then
`interval_tree.add` (the `intervaltree` package first returns on a duplicate
node and otherwise raises `ValueError` on a null interval), then update the
label bucket and assign the uuid entry. Errors surface before any state is
written. -/
def MassIntervalTree.add (st : MassIntervalTree) (I : ExclusionInterval) :
    Except String MassIntervalTree :=
  match I.interval_id with
  | none => .error "Cannot add an interval with id = None"
  | some _ =>
      let I' := I.generate_uuid st.next_uuid
      let mi := get_mass_interval I'
      if mi ∈ st.interval_tree then
        .ok { interval_tree := st.interval_tree
              id_dict := dictAddMem st.id_dict I'.interval_id mi
              uuid_dict := uuidAssign st.uuid_dict I'.interval_uuid I'
              next_uuid := st.next_uuid + 1 }
      else if mi.is_null then
        .error "Null Interval objects not allowed in IntervalTree"
      else
        .ok { interval_tree := mi :: st.interval_tree
              id_dict := dictAddMem st.id_dict I'.interval_id mi
              uuid_dict := uuidAssign st.uuid_dict I'.interval_uuid I'
              next_uuid := st.next_uuid + 1 }

/-- The `intervaltree` package's `envelop(begin, end)` on the mass tree: the
nodes whose range lies fully inside `[begin, end)`; an empty query range
yields nothing. -/
def envelopQuery (t : List MassInterval) (lo hi : XFloat) : List MassInterval :=
  if XFloat.le hi lo then []
  else t.filter fun mi => XFloat.le lo mi.lo && XFloat.le mi.hi hi

/-- Source: `src/src/exclusionms/db.py`, `_get_intervals_by_bounds`
(lines 143-156): envelop the tree with the probe's resolved mass range, then
keep the nodes enveloped by the probe on all dimensions. -/
def MassIntervalTree.get_intervals_by_bounds (st : MassIntervalTree)
    (P : ExclusionInterval) : List MassInterval :=
  (envelopQuery st.interval_tree (convert_min_bounds P.min_mass)
      (convert_max_bounds P.max_mass)).filter
    fun mi => mi.data.is_enveloped_by P

/-- Source: `src/src/exclusionms/db.py`, `_get_intervals_by_id`
(lines 158-170). -/
def MassIntervalTree.get_intervals_by_id (st : MassIntervalTree) (k : Option String) :
    List MassInterval :=
  dictFind st.id_dict k

/-- Source: `src/src/exclusionms/db.py`, `_get_interval` (lines 123-141):
select by bounds when the probe's label is null, otherwise by label and then
by envelope. -/
def MassIntervalTree.get_interval (st : MassIntervalTree) (P : ExclusionInterval) :
    List MassInterval :=
  if P.interval_id = none then st.get_intervals_by_bounds P
  else (st.get_intervals_by_id P.interval_id).filter fun mi => mi.data.is_enveloped_by P

/-- Source: `src/src/exclusionms/db.py`, `MassIntervalTree.remove`
(lines 74-101): select, then three sequential phases — remove the selected
nodes from the tree (iterating `set(mass_intervals)`), remove them from their
label buckets (popping emptied keys), and pop their uuids. The Boolean records
that no `KeyError` occurred in the uuid phase (the earlier phases cannot fail
when the index invariant holds; they are modelled as plain erasures). -/
def MassIntervalTree.remove (st : MassIntervalTree) (P : ExclusionInterval) :
    List ExclusionInterval × MassIntervalTree × Bool :=
  let mass_intervals := st.get_interval P
  let intervals := mass_intervals.map fun mi => mi.data
  let t' := mass_intervals.dedup.foldl (fun t mi => t.erase mi) st.interval_tree
  let d' := mass_intervals.foldl (fun d mi => dictRemoveMem d mi.data.interval_id mi) st.id_dict
  let u' := uuidPopAll intervals st.uuid_dict
  (intervals,
   { interval_tree := t', id_dict := d', uuid_dict := u'.1, next_uuid := st.next_uuid },
   u'.2)

/-- Source: `src/src/exclusionms/db.py`, `remove_by_uuid` (lines 103-121):
`ValueError` (here `none`) on an unknown uuid; otherwise remove the interval's
node from the tree, from its label bucket (popping the key when emptied) and
from the uuid index. Under the index invariant every lookup succeeds. -/
def MassIntervalTree.remove_by_uuid (st : MassIntervalTree) (u : ℕ) :
    Option (ExclusionInterval × MassIntervalTree) :=
  match uuidFind st.uuid_dict (some u) with
  | none => none
  | some I =>
      some (I,
        { interval_tree := st.interval_tree.erase (get_mass_interval I)
          id_dict := dictRemoveMem st.id_dict I.interval_id (get_mass_interval I)
          uuid_dict := st.uuid_dict.filter fun p => decide (p.1 ≠ I.interval_uuid)
          next_uuid := st.next_uuid })

/-- Source: `src/src/exclusionms/db.py`, `query_by_interval` (lines 232-242). -/
def MassIntervalTree.query_by_interval (st : MassIntervalTree) (P : ExclusionInterval) :
    List ExclusionInterval :=
  (st.get_interval P).map fun mi => mi.data

/-- Source: `src/src/exclusionms/db.py`, `query_by_point` (lines 244-259):
stab the tree at the point's mass (iterate everything when the mass is null),
then keep the intervals that bound the point. -/
def MassIntervalTree.query_by_point (st : MassIntervalTree) (p : ExclusionPoint) :
    List ExclusionInterval :=
  let intervals :=
    match p.mass with
    | none => st.interval_tree
    | some m =>
        st.interval_tree.filter fun mi =>
          XFloat.le mi.lo (.val m) && XFloat.lt (.val m) mi.hi
  (intervals.filter fun mi => p.is_bounded_by_quick mi.data).map fun mi => mi.data

/-- Source: `src/src/exclusionms/db.py`, `query_by_id` (lines 261-271). -/
def MassIntervalTree.query_by_id (st : MassIntervalTree) (k : Option String) :
    List ExclusionInterval :=
  (st.get_intervals_by_id k).map fun mi => mi.data

/-- Source: `src/src/exclusionms/db.py`, `is_excluded` (lines 172-185): scan
`query_by_point` for an interval with `exclusion is True`. -/
def MassIntervalTree.is_excluded (st : MassIntervalTree) (p : ExclusionPoint) : Bool :=
  (st.query_by_point p).any fun I => I.exclusion

/-- Source: `src/src/exclusionms/db.py`, `is_included` (lines 187-200): scan
`query_by_point` for an interval with `exclusion is False`. -/
def MassIntervalTree.is_included (st : MassIntervalTree) (p : ExclusionPoint) : Bool :=
  (st.query_by_point p).any fun I => !I.exclusion

/-- Source: `src/src/exclusionms/db.py`, `point_status` (lines 202-230):
materialise `query_by_point`, then classify by the polarity flags. -/
def MassIntervalTree.point_status (st : MassIntervalTree) (p : ExclusionPoint) :
    IntervalStatus :=
  let intervals := st.query_by_point p
  if intervals.length = 0 then .NO_INTERVALS_FOUND
  else
    let exclusion_flags := intervals.map fun I => I.exclusion
    if exclusion_flags.all (fun b => b) then .EXCLUDED
    else if !(exclusion_flags.any fun b => b) then .INCLUDED
    else .EXCLUDED_INCLUDED

/-- Source: `src/src/exclusionms/db.py`, `save` (lines 273-281): the snapshot
is the pickled mass tree (the byte codec itself is out of scope). -/
def MassIntervalTree.save (st : MassIntervalTree) : List MassInterval :=
  st.interval_tree

/-- The rebuild loop of `load` (`src/src/exclusionms/db.py` lines 292-295):
`id_dict` is rebuilt from the unpickled tree by `setdefault(...).add(...)`. -/
def rebuildIdDict (t : List MassInterval) : List (Option String × List MassInterval) :=
  t.foldl (fun d mi => dictAddMem d mi.data.interval_id mi) []

/-- Source: `src/src/exclusionms/db.py`, `load` (lines 283-295): replace the
tree with the unpickled one and rebuild `id_dict`; `uuid_dict` is left
untouched. -/
def MassIntervalTree.load (st : MassIntervalTree) (file : List MassInterval) :
    MassIntervalTree :=
  { interval_tree := file
    id_dict := rebuildIdDict file
    uuid_dict := st.uuid_dict
    next_uuid := st.next_uuid }

/-- Source: `src/src/exclusionms/db.py`, `clear` (lines 297-303). -/
def MassIntervalTree.clear (st : MassIntervalTree) : MassIntervalTree :=
  { interval_tree := []
    id_dict := []
    uuid_dict := []
    next_uuid := st.next_uuid }

/-- Source: `src/src/exclusionms/db.py`, `__len__` (lines 305-312). -/
def MassIntervalTree.length (st : MassIntervalTree) : ℕ :=
  st.interval_tree.length

/-- Total size of the label index: the sum of the bucket sizes
(`sum(len(id_dict[k]) for k in id_dict)`, as in `stats`). -/
def sumBuckets (d : List (Option String × List MassInterval)) : ℕ :=
  (d.map fun p => p.2.length).sum

/-- The mutating operations of spec §8 P1 / claim C9, as submitted by callers.
`save` carries no payload (it writes the snapshot out); `load` carries the
snapshot contents read back in. -/
inductive Op where
  | add (I : ExclusionInterval)
  | remove (P : ExclusionInterval)
  | removeByUuid (u : ℕ)
  | clear
  | save
  | load (file : List MassInterval)

/-- Whether an operation is a `load`. -/
def Op.isLoad : Op → Bool
  | .load _ => true
  | _ => false

/-- Effect of one operation on the index. Raising operations (`add` with a
null label or a null mass range, `remove_by_uuid` on an unknown uuid) raise
before touching any state, so the state is unchanged there. -/
def runOp (st : MassIntervalTree) : Op → MassIntervalTree
  | .add I => match st.add I with | .ok st' => st' | .error _ => st
  | .remove P => (st.remove P).2.1
  | .removeByUuid u =>
      match st.remove_by_uuid u with | some r => r.2 | none => st
  | .clear => st.clear
  | .save => st
  | .load file => st.load file

/-- Run a sequence of operations left to right. -/
def run (ops : List Op) (st : MassIntervalTree) : MassIntervalTree :=
  ops.foldl runOp st

/-- Helper for stating the charge-free part of `is_enveloped_by`: the four
continuous dimension tests of `src/src/exclusionms/components.py`
lines 97-111. -/
def bounds_enveloped (s o : ExclusionInterval) : Bool :=
  !dim_not_enveloped s.min_mass s.max_mass o.min_mass o.max_mass &&
  !dim_not_enveloped s.min_rt s.max_rt o.min_rt o.max_rt &&
  !dim_not_enveloped s.min_ook0 s.max_ook0 o.min_ook0 o.max_ook0 &&
  !dim_not_enveloped s.min_intensity s.max_intensity o.min_intensity o.max_intensity

theorem xfloat_lt_val_val (a b : ℚ) : XFloat.lt (.val a) (.val b) = decide (a < b) := rfl

theorem xfloat_lt_self (x : XFloat) : XFloat.lt x x = false := by
  cases x <;> simp [XFloat.lt]

theorem coord_outside_at_max (m : ℚ) (lo : Option ℚ) :
    coord_outside (some m) lo (some m) = true := by
  simp [coord_outside, XFloat.le, convert_max_bounds, xfloat_lt_self]

theorem coord_outside_at_min (m : ℚ) (hi : Option ℚ)
    (h : XFloat.lt (.val m) (convert_max_bounds hi) = true) :
    coord_outside (some m) (some m) hi = false := by
  simp [coord_outside, XFloat.le, convert_min_bounds, xfloat_lt_self, h]

/-- Claim C1 (amended): `is_bounded_by` is exclusive at every finite upper
bound — a point whose coordinate equals the interval's (finite) max on any of
the four continuous dimensions is not bounded — and inclusive at every lower
bound that lies strictly below the dimension's resolved upper bound: a point
whose coordinate equals such a min, whose charge is compatible and whose other
coordinates are null or inside the interval's resolved bounds, is bounded. -/
theorem c1_half_open_containment (p : ExclusionPoint) (I : ExclusionInterval) :
    (∀ m : ℚ, p.mass = some m → I.max_mass = some m → p.is_bounded_by I = false) ∧
    (∀ r : ℚ, p.rt = some r → I.max_rt = some r → p.is_bounded_by I = false) ∧
    (∀ k : ℚ, p.ook0 = some k → I.max_ook0 = some k → p.is_bounded_by I = false) ∧
    (∀ i : ℚ, p.intensity = some i → I.max_intensity = some i →
      p.is_bounded_by I = false) ∧
    (∀ m : ℚ, p.mass = some m → I.min_mass = some m →
      XFloat.lt (.val m) (convert_max_bounds I.max_mass) = true →
      charge_mismatch p.charge I.charge = false →
      coord_outside p.rt I.min_rt I.max_rt = false →
      coord_outside p.ook0 I.min_ook0 I.max_ook0 = false →
      coord_outside p.intensity I.min_intensity I.max_intensity = false →
      p.is_bounded_by I = true) ∧
    (∀ r : ℚ, p.rt = some r → I.min_rt = some r →
      XFloat.lt (.val r) (convert_max_bounds I.max_rt) = true →
      charge_mismatch p.charge I.charge = false →
      coord_outside p.mass I.min_mass I.max_mass = false →
      coord_outside p.ook0 I.min_ook0 I.max_ook0 = false →
      coord_outside p.intensity I.min_intensity I.max_intensity = false →
      p.is_bounded_by I = true) ∧
    (∀ k : ℚ, p.ook0 = some k → I.min_ook0 = some k →
      XFloat.lt (.val k) (convert_max_bounds I.max_ook0) = true →
      charge_mismatch p.charge I.charge = false →
      coord_outside p.mass I.min_mass I.max_mass = false →
      coord_outside p.rt I.min_rt I.max_rt = false →
      coord_outside p.intensity I.min_intensity I.max_intensity = false →
      p.is_bounded_by I = true) ∧
    (∀ i : ℚ, p.intensity = some i → I.min_intensity = some i →
      XFloat.lt (.val i) (convert_max_bounds I.max_intensity) = true →
      charge_mismatch p.charge I.charge = false →
      coord_outside p.mass I.min_mass I.max_mass = false →
      coord_outside p.rt I.min_rt I.max_rt = false →
      coord_outside p.ook0 I.min_ook0 I.max_ook0 = false →
      p.is_bounded_by I = true) := by
  refine ⟨?_, ?_, ?_, ?_, ?_, ?_, ?_, ?_⟩
  · intro m hm hM
    have h : coord_outside p.mass I.min_mass I.max_mass = true := by
      rw [hm, hM]; exact coord_outside_at_max m I.min_mass
    simp [ExclusionPoint.is_bounded_by, h]
  · intro r hr hM
    have h : coord_outside p.rt I.min_rt I.max_rt = true := by
      rw [hr, hM]; exact coord_outside_at_max r I.min_rt
    simp [ExclusionPoint.is_bounded_by, h]
  · intro k hk hM
    have h : coord_outside p.ook0 I.min_ook0 I.max_ook0 = true := by
      rw [hk, hM]; exact coord_outside_at_max k I.min_ook0
    simp [ExclusionPoint.is_bounded_by, h]
  · intro i hi hM
    have h : coord_outside p.intensity I.min_intensity I.max_intensity = true := by
      rw [hi, hM]; exact coord_outside_at_max i I.min_intensity
    simp [ExclusionPoint.is_bounded_by, h]
  · intro m hm hmin hlt hch hrt hook hint
    have h : coord_outside p.mass I.min_mass I.max_mass = false := by
      rw [hm, hmin]; exact coord_outside_at_min m I.max_mass hlt
    simp [ExclusionPoint.is_bounded_by, h, hch, hrt, hook, hint]
  · intro r hr hmin hlt hch hmass hook hint
    have h : coord_outside p.rt I.min_rt I.max_rt = false := by
      rw [hr, hmin]; exact coord_outside_at_min r I.max_rt hlt
    simp [ExclusionPoint.is_bounded_by, h, hch, hmass, hook, hint]
  · intro k hk hmin hlt hch hmass hrt hint
    have h : coord_outside p.ook0 I.min_ook0 I.max_ook0 = false := by
      rw [hk, hmin]; exact coord_outside_at_min k I.max_ook0 hlt
    simp [ExclusionPoint.is_bounded_by, h, hch, hmass, hrt, hint]
  · intro i hi hmin hlt hch hmass hrt hook
    have h : coord_outside p.intensity I.min_intensity I.max_intensity = false := by
      rw [hi, hmin]; exact coord_outside_at_min i I.max_intensity hlt
    simp [ExclusionPoint.is_bounded_by, h, hch, hmass, hrt, hook]

/-- Whether `MassIntervalTree.add` returns without raising. -/
def add_succeeds (st : MassIntervalTree) (I : ExclusionInterval) : Bool :=
  match st.add I with
  | .ok _ => true
  | .error _ => false

/-- Concrete interval for the C1 witness. -/
def c1I : ExclusionInterval :=
  { interval_id := some "W", charge := some 1, min_mass := some 10, max_mass := some 20,
    min_rt := some 30, max_rt := some 40, min_ook0 := some 50, max_ook0 := some 60,
    min_intensity := some 70, max_intensity := some 80 }

theorem c1_half_open_witness :
    ExclusionPoint.is_bounded_by { mass := some 20 } c1I = false ∧
    ExclusionPoint.is_bounded_by { rt := some 40 } c1I = false ∧
    ExclusionPoint.is_bounded_by { ook0 := some 60 } c1I = false ∧
    ExclusionPoint.is_bounded_by { intensity := some 80 } c1I = false ∧
    ExclusionPoint.is_bounded_by
      { charge := some 1, mass := some 10, rt := some 30, ook0 := some 50,
        intensity := some 70 } c1I = true :=
  ⟨(c1_half_open_containment _ c1I).1 20 rfl rfl,
   (c1_half_open_containment _ c1I).2.1 40 rfl rfl,
   (c1_half_open_containment _ c1I).2.2.1 60 rfl rfl,
   (c1_half_open_containment _ c1I).2.2.2.1 80 rfl rfl,
   (c1_half_open_containment _ c1I).2.2.2.2.1 10 rfl rfl (by decide) (by decide)
     (by decide) (by decide) (by decide)⟩

/-- Degenerate stored interval for the C1 counterexample: `min_rt == max_rt`
is storable (the tree only rejects a null *mass* range), and a point at that
shared rt bound is then not bounded, against the claim's inclusive-min rule. -/
def c1Ideg : ExclusionInterval :=
  { interval_id := some "PEPTIDE", charge := none, min_mass := some 1, max_mass := some 2,
    min_rt := some 5, max_rt := some 5, min_ook0 := none, max_ook0 := none,
    min_intensity := none, max_intensity := none }

/-- Probe point for the C1 counterexample. -/
def c1pDeg : ExclusionPoint :=
  { charge := none, mass := some 1, rt := some 5, ook0 := none, intensity := none }

theorem c1_counterexample :
    add_succeeds emptyTree c1Ideg = true ∧
    c1pDeg.rt = c1Ideg.min_rt ∧
    charge_mismatch c1pDeg.charge c1Ideg.charge = false ∧
    coord_outside c1pDeg.mass c1Ideg.min_mass c1Ideg.max_mass = false ∧
    coord_outside c1pDeg.ook0 c1Ideg.min_ook0 c1Ideg.max_ook0 = false ∧
    coord_outside c1pDeg.intensity c1Ideg.min_intensity c1Ideg.max_intensity = false ∧
    c1pDeg.is_bounded_by c1Ideg = false := by
  decide

/-- Claim C2 (amended): the current revision's resolvers map a null min bound
to `-inf` and a null max bound to `+inf` and are the identity on set bounds,
so in every comparison a finite value is at least a resolved null min and
strictly below a resolved null max, and no resolved value is below a resolved
null min or above a resolved null max — a null bound is unbounded on its side
in every containment, envelope and validity check. (The legacy revision's min
resolver instead returns `sys.float_info.min`; see the counterexample.) -/
theorem c2_null_bound_resolution :
    convert_min_bounds none = XFloat.negInf ∧
    convert_max_bounds none = XFloat.posInf ∧
    (∀ q : ℚ, convert_min_bounds (some q) = XFloat.val q) ∧
    (∀ q : ℚ, convert_max_bounds (some q) = XFloat.val q) ∧
    (∀ q : ℚ, XFloat.le (convert_min_bounds none) (XFloat.val q) = true) ∧
    (∀ q : ℚ, XFloat.lt (XFloat.val q) (convert_max_bounds none) = true) ∧
    (∀ x : XFloat, XFloat.lt x (convert_min_bounds none) = false) ∧
    (∀ x : XFloat, XFloat.lt (convert_max_bounds none) x = false) := by
  refine ⟨rfl, rfl, fun q => rfl, fun q => rfl, fun q => ?_, fun q => rfl,
    fun x => ?_, fun x => ?_⟩
  · simp [XFloat.le, XFloat.lt, convert_min_bounds]
  · cases x <;> rfl
  · cases x <;> rfl

/-- Legacy interval with a null lower mass bound for the C2 counterexample. -/
def c2Ileg : ExclusionInterval :=
  { interval_id := some "X", charge := none, min_mass := none, max_mass := some 10,
    min_rt := none, max_rt := none, min_ook0 := none, max_ook0 := none,
    min_intensity := none, max_intensity := none }

/-- Probe at mass 0 for the C2 counterexample. -/
def c2pLeg : ExclusionPoint := { mass := some 0 }

theorem c2_counterexample :
    legacy_convert_min_bounds none = float_info_min ∧
    (0 : ℚ) < float_info_min ∧
    c2Ileg.min_mass = none ∧
    legacy_is_bounded_by c2pLeg c2Ileg = false := by
  refine ⟨rfl, by norm_num [float_info_min], rfl, ?_⟩
  have h : ((0 : ℚ) < legacy_convert_min_bounds c2Ileg.min_mass) := by
    norm_num [c2Ileg, legacy_convert_min_bounds, float_info_min]
  have hb : legacy_coord_outside c2pLeg.mass c2Ileg.min_mass c2Ileg.max_mass = true := by
    simp [legacy_coord_outside, c2pLeg, h]
  simp [legacy_is_bounded_by, hb]

/-- Claim C3 (amended): in the current revision's `is_enveloped_by` the charge
test fails exactly when both charges are set and differ; when either side's
charge is null — including the case where self's charge is null and other's is
set — the charge test passes and the result is the conjunction of the four
continuous-dimension envelope tests. (The legacy revision instead returns
false when self's charge is null and other's is set, which is what the claim
describes; the current revision and its test suite do not.) -/
theorem c3_envelope_charge_rule (A B : ExclusionInterval) :
    (∀ a b : ℤ, A.charge = some a → B.charge = some b → a ≠ b →
      A.is_enveloped_by B = false) ∧
    (B.charge = none → A.is_enveloped_by B = bounds_enveloped A B) ∧
    (A.charge = none → A.is_enveloped_by B = bounds_enveloped A B) ∧
    (A.charge = none → ∀ b : ℤ, B.charge = some b → legacy_is_enveloped_by A B = false) := by
  refine ⟨?_, ?_, ?_, ?_⟩
  · intro a b ha hb hne
    have h : charge_mismatch A.charge B.charge = true := by
      rw [ha, hb]; simp [charge_mismatch, hne]
    simp [ExclusionInterval.is_enveloped_by, h]
  · intro hB
    have h : charge_mismatch A.charge B.charge = false := by
      rw [hB]; cases A.charge <;> simp [charge_mismatch]
    simp [ExclusionInterval.is_enveloped_by, bounds_enveloped, h, Bool.and_assoc]
  · intro hA
    have h : charge_mismatch A.charge B.charge = false := by
      rw [hA]; simp [charge_mismatch]
    simp [ExclusionInterval.is_enveloped_by, bounds_enveloped, h, Bool.and_assoc]
  · intro hA b hb
    simp [legacy_is_enveloped_by, hA, hb]

/-- Self interval with null charge (from `tests/test_interval.py` lines
59-79). -/
def c3A : ExclusionInterval :=
  { interval_id := none, charge := none, min_mass := some 1000, max_mass := some 1001,
    min_rt := none, max_rt := none, min_ook0 := none, max_ook0 := none,
    min_intensity := none, max_intensity := none }

/-- Other interval with a set charge (from `tests/test_interval.py` lines
59-79). -/
def c3B : ExclusionInterval :=
  { interval_id := none, charge := some 1, min_mass := some 999, max_mass := some 1002,
    min_rt := none, max_rt := none, min_ook0 := none, max_ook0 := none,
    min_intensity := none, max_intensity := none }

theorem c3_counterexample :
    c3A.charge = none ∧ c3B.charge = some 1 ∧ c3A.is_enveloped_by c3B = true := by
  decide

/-- Self with charge 1 for the C3 witness. -/
def c3A1 : ExclusionInterval := { c3A with charge := some 1 }

/-- Other with charge 2 for the C3 witness. -/
def c3B2 : ExclusionInterval := { c3B with charge := some 2 }

/-- Other with null charge for the C3 witness. -/
def c3Bnone : ExclusionInterval := { c3B with charge := none }

theorem c3_envelope_charge_witness :
    c3A1.is_enveloped_by c3B2 = false ∧
    c3A1.is_enveloped_by c3Bnone = bounds_enveloped c3A1 c3Bnone ∧
    c3A.is_enveloped_by c3B2 = bounds_enveloped c3A c3B2 ∧
    legacy_is_enveloped_by c3A c3B2 = false :=
  ⟨(c3_envelope_charge_rule c3A1 c3B2).1 1 2 rfl rfl (by decide),
   (c3_envelope_charge_rule c3A1 c3Bnone).2.1 rfl,
   (c3_envelope_charge_rule c3A c3B2).2.2.1 rfl,
   (c3_envelope_charge_rule c3A c3B2).2.2.2 rfl 2 rfl⟩

/-- The classification step of `point_status` on the materialised query
result (proof-layer restatement of the body of `point_status`). -/
def classify_status (l : List ExclusionInterval) : IntervalStatus :=
  if l.length = 0 then .NO_INTERVALS_FOUND
  else
    let exclusion_flags := l.map fun I => I.exclusion
    if exclusion_flags.all (fun b => b) then .EXCLUDED
    else if !(exclusion_flags.any fun b => b) then .INCLUDED
    else .EXCLUDED_INCLUDED

theorem point_status_eq_classify (st : MassIntervalTree) (p : ExclusionPoint) :
    st.point_status p = classify_status (st.query_by_point p) := rfl

theorem all_flags_true_of_forall {l : List ExclusionInterval}
    (h : ∀ I ∈ l, I.exclusion = true) :
    ((l.map fun I => I.exclusion).all fun b => b) = true := by
  rw [List.all_eq_true]
  intro b hb
  rw [List.mem_map] at hb
  obtain ⟨I, hI, rfl⟩ := hb
  simpa using h I hI

theorem all_flags_false_of_mem {l : List ExclusionInterval} {J : ExclusionInterval}
    (hJ : J ∈ l) (hJf : J.exclusion = false) :
    ((l.map fun I => I.exclusion).all fun b => b) = false := by
  rcases Bool.eq_false_or_eq_true ((l.map fun I => I.exclusion).all fun b => b) with h | h
  · exfalso
    rw [List.all_eq_true] at h
    have := h J.exclusion (List.mem_map_of_mem _ hJ)
    simp [hJf] at this
  · exact h

theorem any_flags_true_of_mem {l : List ExclusionInterval} {J : ExclusionInterval}
    (hJ : J ∈ l) (hJt : J.exclusion = true) :
    ((l.map fun I => I.exclusion).any fun b => b) = true := by
  rw [List.any_eq_true]
  exact ⟨J.exclusion, List.mem_map_of_mem _ hJ, by simp [hJt]⟩

theorem any_flags_false_of_forall {l : List ExclusionInterval}
    (h : ∀ I ∈ l, I.exclusion = false) :
    ((l.map fun I => I.exclusion).any fun b => b) = false := by
  rcases Bool.eq_false_or_eq_true ((l.map fun I => I.exclusion).any fun b => b) with ht | hf
  · exfalso
    rw [List.any_eq_true] at ht
    obtain ⟨b, hb, hbt⟩ := ht
    rw [List.mem_map] at hb
    obtain ⟨I, hI, rfl⟩ := hb
    have := h I hI
    simp [this] at hbt
  · exact hf

theorem classify_spec (l : List ExclusionInterval) :
    (classify_status l = .NO_INTERVALS_FOUND ↔ l = []) ∧
    (classify_status l = .EXCLUDED ↔ l ≠ [] ∧ ∀ I ∈ l, I.exclusion = true) ∧
    (classify_status l = .INCLUDED ↔ l ≠ [] ∧ ∀ I ∈ l, I.exclusion = false) ∧
    (classify_status l = .EXCLUDED_INCLUDED ↔
      (∃ I ∈ l, I.exclusion = true) ∧ (∃ I ∈ l, I.exclusion = false)) := by
  rcases l with _ | ⟨I0, l⟩
  · simp [classify_status]
  · by_cases hall : ∀ I ∈ I0 :: l, I.exclusion = true
    · have hcs : classify_status (I0 :: l) = .EXCLUDED := by
        simp only [classify_status]
        rw [if_neg (by simp : ¬((I0 :: l).length = 0)), all_flags_true_of_forall hall]
        simp
      have hI0 : I0.exclusion = true := hall I0 (List.mem_cons_self _ _)
      refine ⟨iff_of_false (by simp [hcs]) (by simp),
        iff_of_true hcs ⟨List.cons_ne_nil _ _, hall⟩,
        iff_of_false (by simp [hcs]) ?_, iff_of_false (by simp [hcs]) ?_⟩
      · rintro ⟨-, hf⟩
        exact absurd (hf I0 (List.mem_cons_self _ _)) (by simp [hI0])
      · rintro ⟨-, If, hIf, hIffalse⟩
        exact absurd (hall If hIf) (by simp [hIffalse])
    · push_neg at hall
      obtain ⟨If, hIfmem, hne⟩ := hall
      have hIffalse : If.exclusion = false := by simpa using hne
      have hA := all_flags_false_of_mem hIfmem hIffalse
      by_cases hany : ∃ I ∈ I0 :: l, I.exclusion = true
      · obtain ⟨It, hItmem, hIttrue⟩ := hany
        have hB := any_flags_true_of_mem hItmem hIttrue
        have hcs : classify_status (I0 :: l) = .EXCLUDED_INCLUDED := by
          simp only [classify_status]
          rw [if_neg (by simp : ¬((I0 :: l).length = 0)), hA, hB]
          simp
        refine ⟨iff_of_false (by simp [hcs]) (by simp),
          iff_of_false (by simp [hcs]) ?_, iff_of_false (by simp [hcs]) ?_,
          iff_of_true hcs ⟨⟨It, hItmem, hIttrue⟩, ⟨If, hIfmem, hIffalse⟩⟩⟩
        · rintro ⟨-, h⟩
          exact absurd (h If hIfmem) (by simp [hIffalse])
        · rintro ⟨-, h⟩
          exact absurd (h It hItmem) (by simp [hIttrue])
      · push_neg at hany
        have hallf : ∀ I ∈ I0 :: l, I.exclusion = false := by
          intro I hI
          simpa using hany I hI
        have hB := any_flags_false_of_forall hallf
        have hcs : classify_status (I0 :: l) = .INCLUDED := by
          simp only [classify_status]
          rw [if_neg (by simp : ¬((I0 :: l).length = 0)), hA, hB]
          simp
        refine ⟨iff_of_false (by simp [hcs]) (by simp),
          iff_of_false (by simp [hcs]) ?_,
          iff_of_true hcs ⟨List.cons_ne_nil _ _, hallf⟩,
          iff_of_false (by simp [hcs]) ?_⟩
        · rintro ⟨-, h⟩
          exact absurd (h If hIfmem) (by simp [hIffalse])
        · rintro ⟨⟨It, hItmem, hIttrue⟩, -⟩
          exact absurd hIttrue (by simp [hallf It hItmem])

/-- Claim C5: `point_status` materialises `query_by_point` and returns
`NO_INTERVALS_FOUND` exactly when the result is empty, `EXCLUDED` exactly when
it is nonempty and every matching interval has exclusion polarity, `INCLUDED`
exactly when it is nonempty and no matching interval has exclusion polarity,
and `EXCLUDED_INCLUDED` exactly when both polarities occur among the matches. -/
theorem c5_point_status_algorithm (st : MassIntervalTree) (p : ExclusionPoint) :
    (st.point_status p = .NO_INTERVALS_FOUND ↔ st.query_by_point p = []) ∧
    (st.point_status p = .EXCLUDED ↔
      st.query_by_point p ≠ [] ∧ ∀ I ∈ st.query_by_point p, I.exclusion = true) ∧
    (st.point_status p = .INCLUDED ↔
      st.query_by_point p ≠ [] ∧ ∀ I ∈ st.query_by_point p, I.exclusion = false) ∧
    (st.point_status p = .EXCLUDED_INCLUDED ↔
      (∃ I ∈ st.query_by_point p, I.exclusion = true) ∧
      (∃ I ∈ st.query_by_point p, I.exclusion = false)) := by
  simp only [point_status_eq_classify]
  exact classify_spec (st.query_by_point p)

/-- Claim C6: `is_excluded` is true exactly when `point_status` is `EXCLUDED`
or `EXCLUDED_INCLUDED`, and `is_included` is true exactly when `point_status`
is `INCLUDED` or `EXCLUDED_INCLUDED`. -/
theorem c6_helper_status_consistency (st : MassIntervalTree) (p : ExclusionPoint) :
    (st.is_excluded p = true ↔
      st.point_status p = .EXCLUDED ∨ st.point_status p = .EXCLUDED_INCLUDED) ∧
    (st.is_included p = true ↔
      st.point_status p = .INCLUDED ∨ st.point_status p = .EXCLUDED_INCLUDED) := by
  obtain ⟨-, h1, h2, h3⟩ := classify_spec (st.query_by_point p)
  simp only [point_status_eq_classify]
  constructor
  · simp only [MassIntervalTree.is_excluded, List.any_eq_true]
    constructor
    · rintro ⟨I, hI, hIe⟩
      by_cases hall : ∀ J ∈ st.query_by_point p, J.exclusion = true
      · exact Or.inl (h1.mpr ⟨List.ne_nil_of_mem hI, hall⟩)
      · push_neg at hall
        obtain ⟨J, hJ, hJne⟩ := hall
        have hJe : J.exclusion = false := by simpa using hJne
        exact Or.inr (h3.mpr ⟨⟨I, hI, hIe⟩, ⟨J, hJ, hJe⟩⟩)
    · rintro (h | h)
      · obtain ⟨hne, hall⟩ := h1.mp h
        obtain ⟨I, hI⟩ := List.exists_mem_of_ne_nil _ hne
        exact ⟨I, hI, hall I hI⟩
      · obtain ⟨⟨I, hI, hIe⟩, -⟩ := h3.mp h
        exact ⟨I, hI, hIe⟩
  · simp only [MassIntervalTree.is_included, List.any_eq_true, Bool.not_eq_true']
    constructor
    · rintro ⟨I, hI, hIe⟩
      by_cases hall : ∀ J ∈ st.query_by_point p, J.exclusion = false
      · exact Or.inl (h2.mpr ⟨List.ne_nil_of_mem hI, hall⟩)
      · push_neg at hall
        obtain ⟨J, hJ, hJne⟩ := hall
        have hJe : J.exclusion = true := by simpa using hJne
        exact Or.inr (h3.mpr ⟨⟨J, hJ, hJe⟩, ⟨I, hI, hIe⟩⟩)
    · rintro (h | h)
      · obtain ⟨hne, hall⟩ := h2.mp h
        obtain ⟨I, hI⟩ := List.exists_mem_of_ne_nil _ hne
        exact ⟨I, hI, hall I hI⟩
      · obtain ⟨-, ⟨I, hI, hIe⟩⟩ := h3.mp h
        exact ⟨I, hI, hIe⟩

/-- All intervals held by the label index (concatenation of its buckets). -/
def dictVals (d : List (Option String × List MassInterval)) : List MassInterval :=
  d.flatMap fun p => p.2

/-- Well-formedness of the label-index entries: buckets are nonempty
duplicate-free sets whose members carry the bucket's key. -/
def bucketsOk (d : List (Option String × List MassInterval)) : Prop :=
  ∀ p ∈ d, p.2 ≠ [] ∧ p.2.Nodup ∧ ∀ mi ∈ p.2, mi.data.interval_id = p.1

/-- The uuid-index entries induced by the tree. -/
def uuid_entries (t : List MassInterval) : List (Option ℕ × ExclusionInterval) :=
  t.map fun mi => (mi.data.interval_uuid, mi.data)

/-- The interval carries a uuid strictly below the generator state. -/
def uuidBelow (o : Option ℕ) (n : ℕ) : Bool :=
  match o with
  | some u => decide (u < n)
  | none => false

theorem dictVals_nil : dictVals [] = [] := rfl

theorem dictVals_cons (p) (d : List (Option String × List MassInterval)) :
    dictVals (p :: d) = p.2 ++ dictVals d := rfl

theorem dictVals_length (d : List (Option String × List MassInterval)) :
    (dictVals d).length = sumBuckets d := by
  induction d with
  | nil => rfl
  | cons p d ih =>
      simp only [dictVals_cons, List.length_append, sumBuckets, List.map_cons, List.sum_cons]
      rw [ih]
      rfl

theorem mem_dictVals {d : List (Option String × List MassInterval)} {x : MassInterval} :
    x ∈ dictVals d ↔ ∃ p ∈ d, x ∈ p.2 := by
  simp [dictVals, List.mem_flatMap]

theorem dictFind_entry (d : List (Option String × List MassInterval)) (k : Option String) :
    dictFind d k = [] ∨ (k, dictFind d k) ∈ d := by
  induction d with
  | nil => exact Or.inl rfl
  | cons p d ih =>
      obtain ⟨k', b⟩ := p
      by_cases hk : k' = k
      · subst hk
        right
        simp [dictFind]
      · rcases ih with h | h
        · left
          simpa [dictFind, hk] using h
        · right
          right
          simpa [dictFind, hk] using h

theorem dictFind_eq_of_mem {d : List (Option String × List MassInterval)}
    {k : Option String} {b : List MassInterval}
    (hkeys : (d.map Prod.fst).Nodup) (hmem : (k, b) ∈ d) : dictFind d k = b := by
  induction d with
  | nil => cases hmem
  | cons p d ih =>
      obtain ⟨k', b'⟩ := p
      rw [List.map_cons, List.nodup_cons] at hkeys
      rcases List.mem_cons.mp hmem with h | h
      · rw [Prod.mk.injEq] at h
        obtain ⟨rfl, rfl⟩ := h
        simp [dictFind]
      · have hk : ¬(k' = k) := by
          rintro rfl
          apply hkeys.1
          rw [List.mem_map]
          exact ⟨(k', b), h, rfl⟩
        simp only [dictFind, if_neg hk]
        exact ih hkeys.2 h

theorem dictAddMem_keys (d : List (Option String × List MassInterval)) (k : Option String)
    (mi : MassInterval) :
    (dictAddMem d k mi).map Prod.fst =
      if k ∈ d.map Prod.fst then d.map Prod.fst else d.map Prod.fst ++ [k] := by
  induction d with
  | nil => simp [dictAddMem]
  | cons p d ih =>
      obtain ⟨k', b⟩ := p
      by_cases hk : k' = k
      · subst hk
        simp [dictAddMem]
      · have hk2 : ¬(k = k') := fun h => hk h.symm
        simp only [dictAddMem, if_neg hk, List.map_cons, ih, List.mem_cons]
        by_cases hmem : k ∈ d.map Prod.fst
        · simp [hmem, hk2]
        · simp [hmem, hk2]

theorem dictAddMem_keys_nodup {d : List (Option String × List MassInterval)}
    (k : Option String) (mi : MassInterval) (h : (d.map Prod.fst).Nodup) :
    ((dictAddMem d k mi).map Prod.fst).Nodup := by
  rw [dictAddMem_keys]
  by_cases hmem : k ∈ d.map Prod.fst
  · simpa [hmem] using h
  · rw [if_neg hmem, List.nodup_append]
    refine ⟨h, List.nodup_singleton _, ?_⟩
    intro a ha hb
    rw [List.mem_singleton] at hb
    subst hb
    exact hmem ha

theorem dictAddMem_bucketsOk {d : List (Option String × List MassInterval)}
    {k : Option String} {mi : MassInterval} (hmi : mi.data.interval_id = k)
    (h : bucketsOk d) : bucketsOk (dictAddMem d k mi) := by
  induction d with
  | nil =>
      intro q hq
      simp only [dictAddMem, List.mem_singleton] at hq
      subst hq
      exact ⟨by simp, by simp, by simpa using hmi⟩
  | cons e d ih =>
      obtain ⟨k', b⟩ := e
      by_cases hk : k' = k
      · subst hk
        simp only [dictAddMem, if_pos rfl]
        intro q hq
        rcases List.mem_cons.mp hq with rfl | hq
        · have hb := h (k', b) (List.mem_cons_self _ _)
          unfold bucketAdd
          by_cases hmem : mi ∈ b
          · simpa [hmem] using hb
          · refine ⟨by simp [hmem], ?_, ?_⟩
            · rw [if_neg hmem, List.nodup_cons]
              exact ⟨hmem, hb.2.1⟩
            · intro x hx
              rw [if_neg hmem, List.mem_cons] at hx
              rcases hx with rfl | hx
              · exact hmi
              · exact hb.2.2 x hx
        · exact h q (List.mem_cons_of_mem _ hq)
      · simp only [dictAddMem, if_neg hk]
        intro q hq
        rcases List.mem_cons.mp hq with rfl | hq
        · exact h (k', b) (List.mem_cons_self _ _)
        · exact ih (fun e he => h e (List.mem_cons_of_mem _ he)) q hq

theorem dictAddMem_vals_perm {d : List (Option String × List MassInterval)}
    {mi : MassInterval} (k : Option String) (hnot : mi ∉ dictVals d) :
    (dictVals (dictAddMem d k mi)).Perm (mi :: dictVals d) := by
  induction d with
  | nil => simp [dictAddMem, dictVals]
  | cons p d ih =>
      obtain ⟨k', b⟩ := p
      rw [dictVals_cons] at hnot
      have hnotb : mi ∉ b := fun h => hnot (List.mem_append_left _ h)
      have hnotd : mi ∉ dictVals d := fun h => hnot (List.mem_append_right _ h)
      by_cases hk : k' = k
      · subst hk
        simp only [dictAddMem, if_pos rfl, dictVals_cons, bucketAdd, if_neg hnotb]
        exact List.Perm.refl _
      · simp only [dictAddMem, if_neg hk, dictVals_cons]
        exact List.Perm.trans (List.Perm.append_left b (ih hnotd)) List.perm_middle

theorem dictRemoveMem_keys_sublist (d : List (Option String × List MassInterval))
    (k : Option String) (mi : MassInterval) :
    ((dictRemoveMem d k mi).map Prod.fst).Sublist (d.map Prod.fst) := by
  induction d with
  | nil => simp [dictRemoveMem]
  | cons p d ih =>
      obtain ⟨k', b⟩ := p
      by_cases hk : k' = k
      · simp only [dictRemoveMem, if_pos hk]
        by_cases hb : (b.erase mi).isEmpty
        · rw [if_pos hb]
          exact (List.Sublist.refl _).cons _
        · rw [if_neg hb]
          simp
      · simp only [dictRemoveMem, if_neg hk, List.map_cons]
        exact ih.cons₂ _

theorem dictRemoveMem_bucketsOk {d : List (Option String × List MassInterval)}
    (k : Option String) (mi : MassInterval) (h : bucketsOk d) :
    bucketsOk (dictRemoveMem d k mi) := by
  induction d with
  | nil => intro q hq; cases hq
  | cons e d ih =>
      obtain ⟨k', b⟩ := e
      by_cases hk : k' = k
      · simp only [dictRemoveMem, if_pos hk]
        by_cases hb : (b.erase mi).isEmpty
        · rw [if_pos hb]
          exact fun q hq => h q (List.mem_cons_of_mem _ hq)
        · rw [if_neg hb]
          intro q hq
          rcases List.mem_cons.mp hq with rfl | hq
          · have hbk := h (k', b) (List.mem_cons_self _ _)
            refine ⟨by simpa [List.isEmpty_iff] using hb, hbk.2.1.erase mi, ?_⟩
            intro x hx
            exact hbk.2.2 x (List.mem_of_mem_erase hx)
          · exact h q (List.mem_cons_of_mem _ hq)
      · simp only [dictRemoveMem, if_neg hk]
        intro q hq
        rcases List.mem_cons.mp hq with rfl | hq
        · exact h (k', b) (List.mem_cons_self _ _)
        · exact ih (fun e he => h e (List.mem_cons_of_mem _ he)) q hq

theorem dictRemoveMem_vals {d : List (Option String × List MassInterval)}
    (mi : MassInterval) (hkeys : (d.map Prod.fst).Nodup) (h : bucketsOk d) :
    dictVals (dictRemoveMem d mi.data.interval_id mi) = (dictVals d).erase mi := by
  induction d with
  | nil => simp [dictRemoveMem, dictVals]
  | cons e d ih =>
      obtain ⟨k', b⟩ := e
      rw [List.map_cons, List.nodup_cons] at hkeys
      have hbk := h (k', b) (List.mem_cons_self _ _)
      rw [dictVals_cons]
      by_cases hk : k' = mi.data.interval_id
      · simp only [dictRemoveMem, if_pos hk]
        by_cases hmem : mi ∈ b
        · rw [List.erase_append_left _ hmem]
          by_cases hb : (b.erase mi).isEmpty
          · rw [if_pos hb]
            rw [List.isEmpty_iff] at hb
            rw [hb, List.nil_append]
          · rw [if_neg hb, dictVals_cons]
        · have hnotrest : mi ∉ dictVals d := by
            intro hrest
            rw [mem_dictVals] at hrest
            obtain ⟨q, hq, hmq⟩ := hrest
            have hqk := (h q (List.mem_cons_of_mem _ hq)).2.2 mi hmq
            apply hkeys.1
            rw [List.mem_map]
            exact ⟨q, hq, by rw [← hqk, ← hk]⟩
          have hnotapp : mi ∉ b ++ dictVals d := by
            intro hx
            rcases List.mem_append.mp hx with hx | hx
            · exact hmem hx
            · exact hnotrest hx
          rw [List.erase_of_not_mem hnotapp]
          have hbe : b.erase mi = b := List.erase_of_not_mem hmem
          by_cases hb : (b.erase mi).isEmpty
          · rw [hbe] at hb
            rw [List.isEmpty_iff] at hb
            exact absurd hb hbk.1
          · rw [if_neg hb, dictVals_cons, hbe]
      · have hnotb : mi ∉ b := by
          intro hx
          exact hk ((hbk.2.2 mi hx).symm) |>.elim
        simp only [dictRemoveMem, if_neg hk, dictVals_cons]
        rw [List.erase_append_right _ hnotb]
        rw [ih hkeys.2 (fun e he => h e (List.mem_cons_of_mem _ he))]

theorem dictFind_mem_iff {d : List (Option String × List MassInterval)}
    {t : List MassInterval} (hkeys : (d.map Prod.fst).Nodup) (hok : bucketsOk d)
    (hperm : (dictVals d).Perm t) (k : Option String) (mi : MassInterval) :
    mi ∈ dictFind d k ↔ mi ∈ t ∧ mi.data.interval_id = k := by
  constructor
  · intro hmem
    rcases dictFind_entry d k with h | h
    · rw [h] at hmem
      cases hmem
    · have hid := (hok _ h).2.2 mi hmem
      have : mi ∈ dictVals d := mem_dictVals.mpr ⟨_, h, hmem⟩
      exact ⟨hperm.mem_iff.mp this, hid⟩
  · rintro ⟨hmem, hid⟩
    have : mi ∈ dictVals d := hperm.mem_iff.mpr hmem
    rw [mem_dictVals] at this
    obtain ⟨q, hq, hmq⟩ := this
    have hqk : q.1 = k := by rw [← hid]; exact ((hok q hq).2.2 mi hmq).symm
    have : dictFind d k = q.2 := by
      apply dictFind_eq_of_mem hkeys
      rw [← hqk]
      exact hq
    rw [this]
    exact hmq

theorem filter_key_map (t : List MassInterval) (u : Option ℕ) :
    ((uuid_entries t).filter fun p => decide (p.1 ≠ u)) =
      uuid_entries (t.filter fun mi => decide (mi.data.interval_uuid ≠ u)) := by
  induction t with
  | nil => rfl
  | cons x rest ih =>
      simp only [uuid_entries, List.map_cons] at ih ⊢
      by_cases hx : x.data.interval_uuid = u
      · rw [List.filter_cons_of_neg (by simp [hx]), List.filter_cons_of_neg (by simp [hx])]
        exact ih
      · rw [List.filter_cons_of_pos (by simp [hx]), List.filter_cons_of_pos (by simp [hx])]
        rw [List.map_cons, ih]

theorem filter_uuid_eq_erase {t : List MassInterval} {mi : MassInterval}
    (h : (t.map fun x => x.data.interval_uuid).Nodup) (hmem : mi ∈ t) :
    (t.filter fun x => decide (x.data.interval_uuid ≠ mi.data.interval_uuid)) = t.erase mi := by
  induction t with
  | nil => cases hmem
  | cons x rest ih =>
      rw [List.map_cons, List.nodup_cons] at h
      by_cases hx : x = mi
      · subst hx
        rw [List.erase_cons_head, List.filter_cons_of_neg (by simp)]
        apply List.filter_eq_self.mpr
        intro a ha
        simp only [decide_eq_true_eq]
        intro hcontra
        exact h.1 (hcontra ▸ List.mem_map_of_mem _ ha)
      · have hmem' : mi ∈ rest := by
          rcases List.mem_cons.mp hmem with h' | h'
          · exact absurd h'.symm hx
          · exact h'
        have hxne : x.data.interval_uuid ≠ mi.data.interval_uuid := by
          intro hcontra
          exact h.1 (hcontra ▸ List.mem_map_of_mem _ hmem')
        rw [List.filter_cons_of_pos (by simp [hxne])]
        rw [List.erase_cons_tail (by simp [hx])]
        rw [ih h.2 hmem']

theorem uuidPop_of_mem {ud : List (Option ℕ × ExclusionInterval)} {u : Option ℕ}
    (h : ∃ p ∈ ud, p.1 = u) :
    uuidPop ud u = some (ud.filter fun p => decide (p.1 ≠ u)) := by
  unfold uuidPop
  rw [if_pos]
  rw [List.any_eq_true]
  obtain ⟨p, hp, hpu⟩ := h
  exact ⟨p, hp, by simp [hpu]⟩

theorem uuidPopAll_spec (sel : List MassInterval) :
    ∀ (t : List MassInterval) (ud : List (Option ℕ × ExclusionInterval)),
      sel.Nodup → (∀ mi ∈ sel, mi ∈ t) → t.Nodup →
      ((t.map fun x => x.data.interval_uuid).Nodup) →
      ud.Perm (uuid_entries t) →
      (uuidPopAll (sel.map fun mi => mi.data) ud).2 = true ∧
      (uuidPopAll (sel.map fun mi => mi.data) ud).1.Perm
        (uuid_entries (sel.foldl (fun acc mi => acc.erase mi) t)) := by
  induction sel with
  | nil =>
      intro t ud _ _ _ _ hperm
      exact ⟨rfl, by simpa [uuidPopAll] using hperm⟩
  | cons mi sel ih =>
      intro t ud hnd hsub htnd hund hperm
      rw [List.nodup_cons] at hnd
      have hmemt : mi ∈ t := hsub mi (List.mem_cons_self _ _)
      have hkey : ∃ p ∈ ud, p.1 = mi.data.interval_uuid :=
        ⟨(mi.data.interval_uuid, mi.data),
          hperm.mem_iff.mpr (List.mem_map_of_mem _ hmemt), rfl⟩
      have hfil : (ud.filter fun p => decide (p.1 ≠ mi.data.interval_uuid)).Perm
          (uuid_entries (t.erase mi)) := by
        have h1 := hperm.filter (fun p => decide (p.1 ≠ mi.data.interval_uuid))
        rw [filter_key_map, filter_uuid_eq_erase hund hmemt] at h1
        exact h1
      have hrec := ih (t.erase mi) (ud.filter fun p => decide (p.1 ≠ mi.data.interval_uuid))
        hnd.2
        (fun x hx =>
          (List.mem_erase_of_ne (a := x) (b := mi) fun hxe => hnd.1 (by rw [← hxe]; exact hx)).mpr
            (hsub x (List.mem_cons_of_mem _ hx)))
        (htnd.erase mi)
        (List.Nodup.sublist ((List.erase_sublist mi t).map _) hund)
        hfil
      constructor
      · rw [List.map_cons]
        simp only [uuidPopAll]
        rw [uuidPop_of_mem hkey]
        exact hrec.1
      · rw [List.map_cons]
        simp only [uuidPopAll]
        rw [uuidPop_of_mem hkey, List.foldl_cons]
        exact hrec.2

theorem mem_foldl_erase (sel : List MassInterval) :
    ∀ (t : List MassInterval), t.Nodup → ∀ x : MassInterval,
      (x ∈ sel.foldl (fun acc mi => acc.erase mi) t ↔ x ∈ t ∧ x ∉ sel) := by
  induction sel with
  | nil => intro t _ x; simp
  | cons mi sel ih =>
      intro t htnd x
      rw [List.foldl_cons, ih (t.erase mi) (htnd.erase mi) x, htnd.mem_erase_iff]
      constructor
      · rintro ⟨⟨hne, hxt⟩, hns⟩
        exact ⟨hxt, by simp [hne, hns]⟩
      · rintro ⟨hxt, hns⟩
        rw [List.mem_cons] at hns
        push_neg at hns
        exact ⟨⟨hns.1, hxt⟩, hns.2⟩

theorem foldl_erase_nodup (sel : List MassInterval) :
    ∀ t : List MassInterval, t.Nodup →
      (sel.foldl (fun acc mi => acc.erase mi) t).Nodup := by
  induction sel with
  | nil => intro t h; exact h
  | cons mi sel ih =>
      intro t h
      rw [List.foldl_cons]
      exact ih _ (h.erase mi)

theorem foldl_erase_perm (sel : List MassInterval) :
    ∀ {l₁ l₂ : List MassInterval}, l₁.Perm l₂ →
      (sel.foldl (fun acc mi => acc.erase mi) l₁).Perm
        (sel.foldl (fun acc mi => acc.erase mi) l₂) := by
  induction sel with
  | nil => intro _ _ h; exact h
  | cons mi sel ih =>
      intro l₁ l₂ h
      rw [List.foldl_cons, List.foldl_cons]
      exact ih (h.erase mi)

theorem fold_dictRemove_spec (sel : List MassInterval) :
    ∀ d : List (Option String × List MassInterval),
      (d.map Prod.fst).Nodup → bucketsOk d →
      ((sel.foldl (fun d mi => dictRemoveMem d mi.data.interval_id mi) d).map Prod.fst).Nodup ∧
      bucketsOk (sel.foldl (fun d mi => dictRemoveMem d mi.data.interval_id mi) d) ∧
      dictVals (sel.foldl (fun d mi => dictRemoveMem d mi.data.interval_id mi) d) =
        sel.foldl (fun acc mi => acc.erase mi) (dictVals d) := by
  induction sel with
  | nil => intro d h1 h2; exact ⟨h1, h2, rfl⟩
  | cons mi sel ih =>
      intro d h1 h2
      rw [List.foldl_cons, List.foldl_cons]
      have hstep1 : ((dictRemoveMem d mi.data.interval_id mi).map Prod.fst).Nodup :=
        List.Nodup.sublist (dictRemoveMem_keys_sublist d _ mi) h1
      have hstep2 : bucketsOk (dictRemoveMem d mi.data.interval_id mi) :=
        dictRemoveMem_bucketsOk _ mi h2
      obtain ⟨ha, hb, hc⟩ := ih (dictRemoveMem d mi.data.interval_id mi) hstep1 hstep2
      exact ⟨ha, hb, by rw [hc, dictRemoveMem_vals mi h1 h2]⟩

theorem xfloat_lt_of_le_of_lt {a b c : XFloat} (h1 : XFloat.le a b = true)
    (h2 : XFloat.lt b c = true) : XFloat.lt a c = true := by
  cases a <;> cases b <;> cases c <;>
    simp_all [XFloat.le, XFloat.lt, decide_eq_true_eq] <;> linarith

theorem xfloat_lt_of_lt_of_le {a b c : XFloat} (h1 : XFloat.lt a b = true)
    (h2 : XFloat.le b c = true) : XFloat.lt a c = true := by
  cases a <;> cases b <;> cases c <;>
    simp_all [XFloat.le, XFloat.lt, decide_eq_true_eq] <;> linarith

/-- The index invariant maintained by the mutating operations: the label index
has duplicate-free keys and well-formed buckets and partitions exactly the
tree's nodes; tree nodes are distinct, derived from their stored interval by
`get_mass_interval`, non-null, and stamped with distinct uuids below the
generator state; and the uuid index holds exactly the tree's intervals keyed
by their uuids. -/
def WF (st : MassIntervalTree) : Prop :=
  (st.id_dict.map Prod.fst).Nodup ∧
  bucketsOk st.id_dict ∧
  (dictVals st.id_dict).Perm st.interval_tree ∧
  st.interval_tree.Nodup ∧
  (∀ mi ∈ st.interval_tree, mi = get_mass_interval mi.data) ∧
  (∀ mi ∈ st.interval_tree, XFloat.lt mi.lo mi.hi = true) ∧
  (∀ mi ∈ st.interval_tree, uuidBelow mi.data.interval_uuid st.next_uuid = true) ∧
  ((st.interval_tree.map fun mi => mi.data.interval_uuid).Nodup) ∧
  st.uuid_dict.Perm (uuid_entries st.interval_tree)

theorem wf_empty : WF emptyTree := by
  refine ⟨?_, ?_, ?_, ?_, ?_, ?_, ?_, ?_, ?_⟩ <;>
    simp [emptyTree, bucketsOk, dictVals, uuid_entries]

theorem get_interval_nodup_sub (st : MassIntervalTree) (P : ExclusionInterval)
    (h : WF st) :
    (st.get_interval P).Nodup ∧ ∀ mi ∈ st.get_interval P, mi ∈ st.interval_tree := by
  obtain ⟨hkeys, hok, hperm, htnd, -, -, -, -, -⟩ := h
  unfold MassIntervalTree.get_interval
  by_cases hP : P.interval_id = none
  · rw [if_pos hP]
    unfold MassIntervalTree.get_intervals_by_bounds envelopQuery
    by_cases hg :
        XFloat.le (convert_max_bounds P.max_mass) (convert_min_bounds P.min_mass) = true
    · rw [if_pos hg]
      simp
    · rw [if_neg hg]
      refine ⟨(htnd.filter _).filter _, ?_⟩
      intro mi hmi
      exact List.mem_of_mem_filter (List.mem_of_mem_filter hmi)
  · rw [if_neg hP]
    constructor
    · rcases dictFind_entry st.id_dict P.interval_id with hf | hf
      · unfold MassIntervalTree.get_intervals_by_id
        rw [hf]
        simp
      · exact ((hok _ hf).2.1).filter _
    · intro mi hmi
      have hmi' := List.mem_of_mem_filter hmi
      unfold MassIntervalTree.get_intervals_by_id at hmi'
      exact ((dictFind_mem_iff hkeys hok hperm P.interval_id mi).mp hmi').1

/-- The probe's resolved mass range envelops the interval's resolved mass
range (spec §4.4: "intervals whose mass range is enveloped by probe's mass
range"). -/
def mass_range_enveloped (I P : ExclusionInterval) : Prop :=
  XFloat.le (convert_min_bounds P.min_mass) (convert_min_bounds I.min_mass) = true ∧
  XFloat.le (convert_max_bounds I.max_mass) (convert_max_bounds P.max_mass) = true

/-- The selection rule of spec §4.4 for `remove(probe)` and
`query_by_interval(probe)`: with a null probe label, mass-range envelope plus
`is_enveloped_by` on all dimensions; with a set probe label, matching label
plus `is_enveloped_by`. -/
def matches_probe (P I : ExclusionInterval) : Prop :=
  if P.interval_id = none then mass_range_enveloped I P ∧ I.is_enveloped_by P = true
  else I.interval_id = P.interval_id ∧ I.is_enveloped_by P = true

theorem get_interval_node_iff (st : MassIntervalTree) (P : ExclusionInterval)
    (h : WF st) (mi : MassInterval) :
    mi ∈ st.get_interval P ↔ mi ∈ st.interval_tree ∧ matches_probe P mi.data := by
  obtain ⟨hkeys, hok, hperm, htnd, hnode, hnn, -, -, -⟩ := h
  unfold MassIntervalTree.get_interval matches_probe
  by_cases hP : P.interval_id = none
  · rw [if_pos hP, if_pos hP]
    unfold MassIntervalTree.get_intervals_by_bounds envelopQuery
    by_cases hg :
        XFloat.le (convert_max_bounds P.max_mass) (convert_min_bounds P.min_mass) = true
    · rw [if_pos hg]
      constructor
      · intro hx
        simp at hx
      · rintro ⟨hmem, ⟨⟨hlo, hhi⟩, -⟩⟩
        exfalso
        have hnn' := hnn mi hmem
        rw [hnode mi hmem] at hnn'
        simp only [get_mass_interval] at hnn'
        have hx1 := xfloat_lt_of_le_of_lt hlo hnn'
        have hx2 := xfloat_lt_of_lt_of_le hx1 hhi
        have hx3 := xfloat_lt_of_lt_of_le hx2 hg
        rw [xfloat_lt_self] at hx3
        cases hx3
    · rw [if_neg hg]
      simp only [List.mem_filter, Bool.and_eq_true]
      constructor
      · rintro ⟨⟨hmem, henv⟩, hbool⟩
        refine ⟨hmem, ⟨?_, ?_⟩, hbool⟩
        · have h1 := henv.1
          rw [hnode mi hmem] at h1
          exact h1
        · have h2 := henv.2
          rw [hnode mi hmem] at h2
          exact h2
      · rintro ⟨hmem, ⟨⟨hlo, hhi⟩, hbool⟩⟩
        refine ⟨⟨hmem, ?_, ?_⟩, hbool⟩
        · rw [hnode mi hmem]
          exact hlo
        · rw [hnode mi hmem]
          exact hhi
  · rw [if_neg hP, if_neg hP]
    rw [List.mem_filter]
    unfold MassIntervalTree.get_intervals_by_id
    rw [dictFind_mem_iff hkeys hok hperm]
    constructor
    · rintro ⟨⟨hmem, hid⟩, hbool⟩
      exact ⟨hmem, hid, hbool⟩
    · rintro ⟨hmem, hid, hbool⟩
      exact ⟨⟨hmem, hid⟩, hbool⟩

theorem foldl_erase_sublist (sel : List MassInterval) :
    ∀ t : List MassInterval,
      (sel.foldl (fun acc mi => acc.erase mi) t).Sublist t := by
  induction sel with
  | nil => intro t; exact List.Sublist.refl t
  | cons mi sel ih =>
      intro t
      rw [List.foldl_cons]
      exact (ih (t.erase mi)).trans (List.erase_sublist mi t)

theorem remove_def (st : MassIntervalTree) (P : ExclusionInterval) :
    st.remove P =
      ((st.get_interval P).map fun mi => mi.data,
        { interval_tree :=
            (st.get_interval P).dedup.foldl (fun t mi => t.erase mi) st.interval_tree
          id_dict :=
            (st.get_interval P).foldl
              (fun d mi => dictRemoveMem d mi.data.interval_id mi) st.id_dict
          uuid_dict :=
            (uuidPopAll ((st.get_interval P).map fun mi => mi.data) st.uuid_dict).1
          next_uuid := st.next_uuid },
        (uuidPopAll ((st.get_interval P).map fun mi => mi.data) st.uuid_dict).2) := rfl

theorem remove_spec (st : MassIntervalTree) (P : ExclusionInterval) (h : WF st) :
    (st.remove P).1 = st.query_by_interval P ∧
    (st.remove P).2.2 = true ∧
    (∀ mi, mi ∈ (st.remove P).2.1.interval_tree ↔
      mi ∈ st.interval_tree ∧ mi ∉ st.get_interval P) ∧
    WF (st.remove P).2.1 := by
  obtain ⟨hselnd, hselsub⟩ := get_interval_nodup_sub st P h
  obtain ⟨hkeys, hok, hperm, htnd, hnode, hnn, hub, hund, huperm⟩ := h
  have hded : (st.get_interval P).dedup = st.get_interval P :=
    List.dedup_eq_self.mpr hselnd
  have hfoldu := uuidPopAll_spec (st.get_interval P) st.interval_tree st.uuid_dict
    hselnd hselsub htnd hund huperm
  have hfoldd := fold_dictRemove_spec (st.get_interval P) st.id_dict hkeys hok
  rw [remove_def, hded]
  refine ⟨rfl, hfoldu.1, ?_, ?_⟩
  · intro mi
    exact mem_foldl_erase (st.get_interval P) st.interval_tree htnd mi
  · have htree' :=
      foldl_erase_nodup (st.get_interval P) st.interval_tree htnd
    have hsub' := foldl_erase_sublist (st.get_interval P) st.interval_tree
    refine ⟨hfoldd.1, hfoldd.2.1, ?_, htree', ?_, ?_, ?_, ?_, ?_⟩
    · rw [hfoldd.2.2]
      exact foldl_erase_perm (st.get_interval P) hperm
    · intro mi hmi
      exact hnode mi (hsub'.mem hmi)
    · intro mi hmi
      exact hnn mi (hsub'.mem hmi)
    · intro mi hmi
      exact hub mi (hsub'.mem hmi)
    · exact List.Nodup.sublist (hsub'.map _) hund
    · exact hfoldu.2

theorem is_null_generate_uuid (I : ExclusionInterval) (u : ℕ) :
    (get_mass_interval (I.generate_uuid u)).is_null = (get_mass_interval I).is_null := rfl

theorem uuidBelow_succ {o : Option ℕ} {n : ℕ} (h : uuidBelow o n = true) :
    uuidBelow o (n + 1) = true := by
  cases o with
  | none => simp [uuidBelow] at h
  | some u =>
      simp only [uuidBelow, decide_eq_true_eq] at h ⊢
      omega

theorem add_fresh_not_mem {st : MassIntervalTree} (I : ExclusionInterval) (h : WF st) :
    get_mass_interval (I.generate_uuid st.next_uuid) ∉ st.interval_tree := by
  intro hmem
  have := h.2.2.2.2.2.2.1 _ hmem
  simp [uuidBelow, get_mass_interval, ExclusionInterval.generate_uuid] at this

theorem add_spec (st : MassIntervalTree) (I : ExclusionInterval) (h : WF st) :
    (add_succeeds st I = false ↔
      I.interval_id = none ∨ (get_mass_interval I).is_null = true) ∧
    ∀ st', st.add I = .ok st' →
      st'.interval_tree =
        get_mass_interval (I.generate_uuid st.next_uuid) :: st.interval_tree ∧
      WF st' := by
  have hfresh := add_fresh_not_mem I h
  obtain ⟨hkeys, hok, hperm, htnd, hnode, hnn, hub, hund, huperm⟩ := h
  have hfilter : (st.uuid_dict.filter fun p => decide (p.1 ≠ some st.next_uuid)) =
      st.uuid_dict := by
    apply List.filter_eq_self.mpr
    intro p hp
    have hpmem := huperm.mem_iff.mp hp
    rw [uuid_entries, List.mem_map] at hpmem
    obtain ⟨mi, hmi, rfl⟩ := hpmem
    have := hub mi hmi
    simp only [decide_eq_true_eq]
    intro hcontra
    rw [hcontra] at this
    simp [uuidBelow] at this
  cases hid : I.interval_id with
  | none =>
      constructor
      · simp [add_succeeds, MassIntervalTree.add, hid]
      · intro st' hadd
        rw [MassIntervalTree.add, hid] at hadd
        cases hadd
  | some k =>
      have hbody : st.add I =
          (if (get_mass_interval (I.generate_uuid st.next_uuid)).is_null then
            Except.error "Null Interval objects not allowed in IntervalTree"
          else
            Except.ok
              { interval_tree :=
                  get_mass_interval (I.generate_uuid st.next_uuid) :: st.interval_tree
                id_dict := dictAddMem st.id_dict (I.generate_uuid st.next_uuid).interval_id
                  (get_mass_interval (I.generate_uuid st.next_uuid))
                uuid_dict := uuidAssign st.uuid_dict
                  (I.generate_uuid st.next_uuid).interval_uuid (I.generate_uuid st.next_uuid)
                next_uuid := st.next_uuid + 1 }) := by
        rw [MassIntervalTree.add, hid]
        rw [if_neg hfresh]
      constructor
      · by_cases hnull : (get_mass_interval (I.generate_uuid st.next_uuid)).is_null = true
        · rw [is_null_generate_uuid] at hnull
          simp [add_succeeds, hbody, is_null_generate_uuid, hnull, hid]
        · rw [is_null_generate_uuid] at hnull
          simp [add_succeeds, hbody, is_null_generate_uuid, hnull, hid]
      · intro st' hadd
        rw [hbody] at hadd
        by_cases hnull : (get_mass_interval (I.generate_uuid st.next_uuid)).is_null = true
        · rw [if_pos hnull] at hadd
          cases hadd
        · rw [if_neg hnull] at hadd
          injection hadd with h2
          subst h2
          refine ⟨rfl, ?_⟩
          have hnotvals : get_mass_interval (I.generate_uuid st.next_uuid) ∉
              dictVals st.id_dict := fun hx => hfresh (hperm.mem_iff.mp hx)
          refine ⟨dictAddMem_keys_nodup _ _ hkeys, dictAddMem_bucketsOk rfl hok, ?_, ?_,
            ?_, ?_, ?_, ?_, ?_⟩
          · exact (dictAddMem_vals_perm _ hnotvals).trans (hperm.cons _)
          · exact List.nodup_cons.mpr ⟨hfresh, htnd⟩
          · intro mi hmi
            rcases List.mem_cons.mp hmi with rfl | hmi
            · rfl
            · exact hnode mi hmi
          · intro mi hmi
            rcases List.mem_cons.mp hmi with rfl | hmi
            · have : (get_mass_interval (I.generate_uuid st.next_uuid)).is_null = false :=
                Bool.eq_false_iff.mpr hnull
              rw [MassInterval.is_null, XFloat.le] at this
              simpa using this
            · exact hnn mi hmi
          · intro mi hmi
            rcases List.mem_cons.mp hmi with rfl | hmi
            · simp [get_mass_interval, ExclusionInterval.generate_uuid, uuidBelow]
            · exact uuidBelow_succ (hub mi hmi)
          · rw [List.map_cons, List.nodup_cons]
            constructor
            · intro hcontra
              rw [List.mem_map] at hcontra
              obtain ⟨mi, hmi, hmieq⟩ := hcontra
              have := hub mi hmi
              rw [hmieq] at this
              simp [uuidBelow, get_mass_interval, ExclusionInterval.generate_uuid] at this
            · exact hund
          · show (uuidAssign st.uuid_dict _ _).Perm _
            rw [uuidAssign]
            have hkey : (I.generate_uuid st.next_uuid).interval_uuid = some st.next_uuid := rfl
            rw [hkey, hfilter]
            exact (huperm.cons _)

theorem remove_by_uuid_spec (st : MassIntervalTree) (u : ℕ) (h : WF st) :
    ∀ I st', st.remove_by_uuid u = some (I, st') → WF st' := by
  obtain ⟨hkeys, hok, hperm, htnd, hnode, hnn, hub, hund, huperm⟩ := h
  intro I st' hr
  rw [MassIntervalTree.remove_by_uuid] at hr
  cases hfo : List.find? (fun p => decide (p.1 = some u)) st.uuid_dict with
  | none =>
      rw [show uuidFind st.uuid_dict (some u) = none by rw [uuidFind, hfo]; rfl] at hr
      cases hr
  | some pr =>
      rw [show uuidFind st.uuid_dict (some u) = some pr.2 by rw [uuidFind, hfo]; rfl] at hr
      injection hr with hr2
      rw [Prod.mk.injEq] at hr2
      obtain ⟨rfl, rfl⟩ := hr2
      have hpmem := List.mem_of_find?_eq_some hfo
      have := huperm.mem_iff.mp hpmem
      rw [uuid_entries, List.mem_map] at this
      obtain ⟨mi, hmi, hmieq⟩ := this
      have hdata : mi.data = pr.2 := by rw [← hmieq]
      have hgmi : get_mass_interval pr.2 = mi := by
        rw [← hdata]
        exact (hnode mi hmi).symm
      have hgmem : get_mass_interval pr.2 ∈ st.interval_tree := by
        rw [hgmi]
        exact hmi
      refine ⟨?_, ?_, ?_, ?_, ?_, ?_, ?_, ?_, ?_⟩
      · exact List.Nodup.sublist (dictRemoveMem_keys_sublist _ _ _) hkeys
      · exact dictRemoveMem_bucketsOk _ _ hok
      · show (dictVals (dictRemoveMem st.id_dict
            (get_mass_interval pr.2).data.interval_id (get_mass_interval pr.2))).Perm
            (st.interval_tree.erase (get_mass_interval pr.2))
        rw [dictRemoveMem_vals (get_mass_interval pr.2) hkeys hok]
        exact hperm.erase _
      · exact htnd.erase _
      · intro mi' hmi'
        exact hnode mi' ((List.erase_sublist _ _).mem hmi')
      · intro mi' hmi'
        exact hnn mi' ((List.erase_sublist _ _).mem hmi')
      · intro mi' hmi'
        exact hub mi' ((List.erase_sublist _ _).mem hmi')
      · exact List.Nodup.sublist ((List.erase_sublist _ _).map _) hund
      · show (st.uuid_dict.filter fun p =>
            decide (p.1 ≠ (get_mass_interval pr.2).data.interval_uuid)).Perm
            (uuid_entries (st.interval_tree.erase (get_mass_interval pr.2)))
        have h1 := huperm.filter
          (fun p => decide (p.1 ≠ (get_mass_interval pr.2).data.interval_uuid))
        rw [filter_key_map, filter_uuid_eq_erase hund hgmem] at h1
        exact h1

theorem wf_clear (st : MassIntervalTree) : WF st.clear := by
  refine ⟨?_, ?_, ?_, ?_, ?_, ?_, ?_, ?_, ?_⟩ <;>
    simp [MassIntervalTree.clear, bucketsOk, dictVals, uuid_entries]

theorem wf_runOp {st : MassIntervalTree} (h : WF st) (op : Op)
    (hop : op.isLoad = false) : WF (runOp st op) := by
  cases op with
  | add I =>
      simp only [runOp]
      cases hadd : st.add I with
      | ok st' => exact ((add_spec st I h).2 st' hadd).2
      | error e => exact h
  | remove P => exact (remove_spec st P h).2.2.2
  | removeByUuid u =>
      simp only [runOp]
      cases hr : st.remove_by_uuid u with
      | none => exact h
      | some r => exact remove_by_uuid_spec st u h r.1 r.2 (by rw [hr])
  | clear => exact wf_clear st
  | save => exact h
  | load f => simp [Op.isLoad] at hop

theorem run_wf (ops : List Op) :
    ∀ st : MassIntervalTree, WF st → (∀ op ∈ ops, op.isLoad = false) →
      WF (run ops st) := by
  induction ops with
  | nil => intro st h _; exact h
  | cons op ops ih =>
      intro st h hops
      show WF (run ops (runOp st op))
      exact ih _ (wf_runOp h op (hops op (List.mem_cons_self _ _)))
        (fun o ho => hops o (List.mem_cons_of_mem _ ho))

theorem wf_sizes {st : MassIntervalTree} (h : WF st) :
    st.length = st.interval_tree.length ∧ st.length = sumBuckets st.id_dict ∧
    st.length = st.uuid_dict.length := by
  obtain ⟨-, -, hperm, -, -, -, -, -, huperm⟩ := h
  refine ⟨rfl, ?_, ?_⟩
  · rw [MassIntervalTree.length, ← hperm.length_eq, dictVals_length]
  · rw [MassIntervalTree.length, huperm.length_eq, uuid_entries, List.length_map]

theorem dictFind_nodup {d : List (Option String × List MassInterval)}
    (hok : bucketsOk d) (k : Option String) : (dictFind d k).Nodup := by
  rcases dictFind_entry d k with h | h
  · rw [h]
    exact List.nodup_nil
  · exact (hok _ h).2.1

theorem rebuild_spec (t : List MassInterval) (hnd : t.Nodup) :
    ((rebuildIdDict t).map Prod.fst).Nodup ∧ bucketsOk (rebuildIdDict t) ∧
    (dictVals (rebuildIdDict t)).Perm t := by
  suffices h : ∀ (l : List MassInterval) (d : List (Option String × List MassInterval))
      (done : List MassInterval),
      (d.map Prod.fst).Nodup → bucketsOk d → (dictVals d).Perm done →
      (done ++ l).Nodup →
      ((l.foldl (fun d mi => dictAddMem d mi.data.interval_id mi) d).map Prod.fst).Nodup ∧
      bucketsOk (l.foldl (fun d mi => dictAddMem d mi.data.interval_id mi) d) ∧
      (dictVals (l.foldl (fun d mi => dictAddMem d mi.data.interval_id mi) d)).Perm
        (done ++ l) by
    have h2 := h t [] [] (by simp) (fun q hq => by cases hq) (by simp [dictVals])
      (by simpa using hnd)
    simpa [rebuildIdDict] using h2
  intro l
  induction l with
  | nil =>
      intro d done h1 h2 h3 _
      exact ⟨h1, h2, by simpa using h3⟩
  | cons mi l ih =>
      intro d done h1 h2 h3 h4
      rw [List.foldl_cons]
      have hnotdone : mi ∉ done := by
        intro hx
        rw [List.nodup_append] at h4
        exact h4.2.2 hx (List.mem_cons_self _ _)
      have hnotvals : mi ∉ dictVals d := fun hx => hnotdone (h3.mem_iff.mp hx)
      have hre := ih (dictAddMem d mi.data.interval_id mi) (done ++ [mi])
        (dictAddMem_keys_nodup _ _ h1)
        (dictAddMem_bucketsOk rfl h2)
        ((dictAddMem_vals_perm _ hnotvals).trans
          ((h3.cons mi).trans (List.perm_append_singleton mi done).symm))
        (by rw [List.append_assoc]; simpa using h4)
      refine ⟨hre.1, hre.2.1, hre.2.2.trans ?_⟩
      rw [List.append_assoc]
      exact List.Perm.refl _

/-- Claim C8 (amended): loading a snapshot into a (possibly cleared) index
restores exactly the saved mass tree — the same multiset of intervals, with
their stored uuids intact — and rebuilds the label index so that point,
label and interval lookups behave as before the save; the uuid index, however,
is NOT rebuilt: it keeps the target index's prior contents, so uuid lookups do
not see the loaded intervals. -/
theorem c8_snapshot_roundtrip (st tgt : MassIntervalTree) (h : WF st) :
    (tgt.load st.save).interval_tree = st.interval_tree ∧
    (tgt.load st.save).uuid_dict = tgt.uuid_dict ∧
    (tgt.load st.save).next_uuid = tgt.next_uuid ∧
    (∀ p : ExclusionPoint, (tgt.load st.save).query_by_point p = st.query_by_point p) ∧
    (∀ k : Option String, ((tgt.load st.save).query_by_id k).Perm (st.query_by_id k)) ∧
    (∀ P : ExclusionInterval,
      ((tgt.load st.save).query_by_interval P).Perm (st.query_by_interval P)) := by
  obtain ⟨hkeys, hok, hperm, htnd, -, -, -, -, -⟩ := h
  have hre := rebuild_spec st.interval_tree htnd
  have hbucket : ∀ k,
      (dictFind (rebuildIdDict st.interval_tree) k).Perm (dictFind st.id_dict k) := by
    intro k
    rw [List.perm_ext_iff_of_nodup (dictFind_nodup hre.2.1 k) (dictFind_nodup hok k)]
    intro mi
    rw [dictFind_mem_iff hre.1 hre.2.1 hre.2.2 k mi,
      dictFind_mem_iff hkeys hok hperm k mi]
  refine ⟨rfl, rfl, rfl, fun p => rfl, ?_, ?_⟩
  · intro k
    exact (hbucket k).map _
  · intro P
    unfold MassIntervalTree.query_by_interval MassIntervalTree.get_interval
    by_cases hP : P.interval_id = none
    · rw [if_pos hP, if_pos hP]
      exact List.Perm.refl _
    · rw [if_neg hP, if_neg hP]
      exact ((hbucket P.interval_id).filter _).map _

/-- Claim C4: `remove(P)` and `query_by_interval(P)` select exactly the same
intervals — the stored intervals whose mass range is enveloped by P's mass
range and which are enveloped by P on all dimensions when P's label is null,
and the stored intervals carrying P's label which are enveloped by P when it
is set — `remove` raises no error, and it deletes exactly the selected set
from the tree. -/
theorem c4_matching_rule (st : MassIntervalTree) (P : ExclusionInterval) (h : WF st) :
    (st.remove P).1 = st.query_by_interval P ∧
    (st.remove P).2.2 = true ∧
    (∀ I : ExclusionInterval, I ∈ st.query_by_interval P ↔
      ∃ mi ∈ st.interval_tree, mi.data = I ∧ matches_probe P I) ∧
    (∀ mi : MassInterval, mi ∈ (st.remove P).2.1.interval_tree ↔
      mi ∈ st.interval_tree ∧ ¬matches_probe P mi.data) := by
  obtain ⟨h1, h2, h3, -⟩ := remove_spec st P h
  refine ⟨h1, h2, ?_, ?_⟩
  · intro I
    unfold MassIntervalTree.query_by_interval
    rw [List.mem_map]
    constructor
    · rintro ⟨mi, hmi, rfl⟩
      have hn := (get_interval_node_iff st P h mi).mp hmi
      exact ⟨mi, hn.1, rfl, hn.2⟩
    · rintro ⟨mi, hmi, rfl, hmatch⟩
      exact ⟨mi, (get_interval_node_iff st P h mi).mpr ⟨hmi, hmatch⟩, rfl⟩
  · intro mi
    rw [h3 mi]
    constructor
    · rintro ⟨hmem, hnot⟩
      refine ⟨hmem, fun hmatch => hnot ?_⟩
      exact (get_interval_node_iff st P h mi).mpr ⟨hmem, hmatch⟩
    · rintro ⟨hmem, hnot⟩
      refine ⟨hmem, fun hsel => hnot ?_⟩
      exact ((get_interval_node_iff st P h mi).mp hsel).2

/-- Stored interval for the C4 witness (spec §8 scenario 1/4). -/
def c4I : ExclusionInterval :=
  { interval_id := some "PEPTIDE", charge := some 1, min_mass := some 1000,
    max_mass := some 1001, min_rt := some 1000, max_rt := some 1001,
    min_ook0 := some 1000, max_ook0 := some 1001, min_intensity := some 1000,
    max_intensity := some 1001, interval_uuid := some 0 }

/-- One-interval index for the C4 witness. -/
def c4st : MassIntervalTree :=
  { interval_tree := [get_mass_interval c4I]
    id_dict := [(some "PEPTIDE", [get_mass_interval c4I])]
    uuid_dict := [(some 0, c4I)]
    next_uuid := 1 }

/-- Bound-only probe for the C4 witness (spec §8 scenario 4). -/
def c4P : ExclusionInterval :=
  { interval_id := none, charge := some 1, min_mass := some 999, max_mass := some 1002,
    min_rt := none, max_rt := none, min_ook0 := none, max_ook0 := none,
    min_intensity := none, max_intensity := none }

theorem c4_witness :
    (c4st.remove c4P).1 = c4st.query_by_interval c4P ∧
    (c4st.remove c4P).2.2 = true :=
  ⟨(c4_matching_rule c4st c4P (by unfold WF bucketsOk; decide)).1,
   (c4_matching_rule c4st c4P (by unfold WF bucketsOk; decide)).2.1⟩

/-- Claim C7 (amended): `add(I)` raises exactly when I's label is null or I's
resolved mass range is empty (the interval tree rejects such "null" nodes);
`is_valid` is never consulted. On every other input no error is raised, the
freshly-stamped interval is stored and the index length grows by one. -/
theorem c7_add_contract (st : MassIntervalTree) (I : ExclusionInterval) (h : WF st) :
    (add_succeeds st I = false ↔
      I.interval_id = none ∨ (get_mass_interval I).is_null = true) ∧
    ∀ st', st.add I = .ok st' →
      st'.interval_tree.length = st.interval_tree.length + 1 ∧
      get_mass_interval (I.generate_uuid st.next_uuid) ∈ st'.interval_tree := by
  obtain ⟨hiff, hok⟩ := add_spec st I h
  refine ⟨hiff, fun st' hadd => ?_⟩
  obtain ⟨htree, -⟩ := hok st' hadd
  rw [htree]
  exact ⟨by simp, List.mem_cons_self _ _⟩

/-- Interval for the C7 witness. -/
def c7IW : ExclusionInterval :=
  { interval_id := some "ADD", charge := none, min_mass := some 100, max_mass := some 200,
    min_rt := none, max_rt := none, min_ook0 := none, max_ook0 := none,
    min_intensity := none, max_intensity := none }

/-- The index state after adding `c7IW` to an empty index. -/
def c7stW : MassIntervalTree :=
  { interval_tree := [get_mass_interval (c7IW.generate_uuid 0)]
    id_dict := [(some "ADD", [get_mass_interval (c7IW.generate_uuid 0)])]
    uuid_dict := [(some 0, c7IW.generate_uuid 0)]
    next_uuid := 1 }

theorem c7_witness :
    (add_succeeds emptyTree c7IW = false ↔
      (c7IW.interval_id = none ∨ (get_mass_interval c7IW).is_null = true)) ∧
    c7stW.interval_tree.length = emptyTree.interval_tree.length + 1 ∧
    get_mass_interval (c7IW.generate_uuid emptyTree.next_uuid) ∈ c7stW.interval_tree :=
  ⟨(c7_add_contract emptyTree c7IW wf_empty).1,
   (c7_add_contract emptyTree c7IW wf_empty).2 c7stW (by rfl)⟩

/-- Interval that is invalid on rt (`min_rt > max_rt`) but added without
error. -/
def c7Ibad : ExclusionInterval :=
  { interval_id := some "X", charge := none, min_mass := some 1, max_mass := some 2,
    min_rt := some 2, max_rt := some 1, min_ook0 := none, max_ook0 := none,
    min_intensity := none, max_intensity := none }

/-- Interval that is valid (`min_mass = max_mass` passes `is_valid`) but
rejected by the interval tree as a null mass range. -/
def c7Inull : ExclusionInterval :=
  { interval_id := some "Y", charge := none, min_mass := some 5, max_mass := some 5,
    min_rt := none, max_rt := none, min_ook0 := none, max_ook0 := none,
    min_intensity := none, max_intensity := none }

theorem c7_counterexample :
    c7Ibad.is_valid = false ∧ add_succeeds emptyTree c7Ibad = true ∧
    c7Inull.is_valid = true ∧ c7Inull.interval_id = some "Y" ∧
    add_succeeds emptyTree c7Inull = false := by
  decide

/-- Interval for the C8 witness and counterexample. -/
def c8I : ExclusionInterval :=
  { interval_id := some "SNAP", charge := none, min_mass := some 10, max_mass := some 20,
    min_rt := none, max_rt := none, min_ook0 := none, max_ook0 := none,
    min_intensity := none, max_intensity := none }

/-- The index state after adding `c8I` to an empty index. -/
def c8st1 : MassIntervalTree :=
  { interval_tree := [get_mass_interval (c8I.generate_uuid 0)]
    id_dict := [(some "SNAP", [get_mass_interval (c8I.generate_uuid 0)])]
    uuid_dict := [(some 0, c8I.generate_uuid 0)]
    next_uuid := 1 }

theorem c8_witness :
    ((c8st1.clear).load c8st1.save).interval_tree = c8st1.interval_tree ∧
    ((c8st1.clear).load c8st1.save).uuid_dict = (c8st1.clear).uuid_dict :=
  ⟨(c8_snapshot_roundtrip c8st1 c8st1.clear (by unfold WF bucketsOk; decide)).1,
   (c8_snapshot_roundtrip c8st1 c8st1.clear (by unfold WF bucketsOk; decide)).2.1⟩

theorem c8_counterexample :
    emptyTree.add c8I = .ok c8st1 ∧
    ((c8st1.clear).load c8st1.save).interval_tree.length = 1 ∧
    ((c8st1.clear).load c8st1.save).uuid_dict.length = 0 ∧
    uuidFind c8st1.uuid_dict (some 0) = some (c8I.generate_uuid 0) ∧
    uuidFind ((c8st1.clear).load c8st1.save).uuid_dict (some 0) = none := by
  refine ⟨by rfl, by rfl, by rfl, by rfl, by rfl⟩

/-- Claim C9 (amended): after every finite sequence of add, remove,
remove-by-uuid, clear and save operations (no load), the index length, the
tree size, the sum of the label-index bucket sizes and the uuid-index size all
agree. (A load breaks the uuid-index equality; see the counterexample.) -/
theorem c9_size_coherence (ops : List Op) (h : ∀ op ∈ ops, op.isLoad = false) :
    (run ops emptyTree).length = (run ops emptyTree).interval_tree.length ∧
    (run ops emptyTree).length = sumBuckets (run ops emptyTree).id_dict ∧
    (run ops emptyTree).length = (run ops emptyTree).uuid_dict.length :=
  wf_sizes (run_wf ops emptyTree wf_empty h)

/-- Interval for the C9 witness and counterexample. -/
def c9I : ExclusionInterval :=
  { interval_id := some "COH", charge := some 2, min_mass := some 50, max_mass := some 60,
    min_rt := none, max_rt := none, min_ook0 := none, max_ook0 := none,
    min_intensity := none, max_intensity := none }

theorem c9_witness :
    (run [Op.add c9I, Op.save, Op.clear, Op.add c9I] emptyTree).length =
      (run [Op.add c9I, Op.save, Op.clear, Op.add c9I] emptyTree).interval_tree.length ∧
    (run [Op.add c9I, Op.save, Op.clear, Op.add c9I] emptyTree).length =
      sumBuckets (run [Op.add c9I, Op.save, Op.clear, Op.add c9I] emptyTree).id_dict ∧
    (run [Op.add c9I, Op.save, Op.clear, Op.add c9I] emptyTree).length =
      (run [Op.add c9I, Op.save, Op.clear, Op.add c9I] emptyTree).uuid_dict.length :=
  c9_size_coherence [Op.add c9I, Op.save, Op.clear, Op.add c9I] (by decide)

/-- Snapshot contents produced by saving after adding `c9I`. -/
def c9file : List MassInterval := [get_mass_interval (c9I.generate_uuid 0)]

theorem c9_counterexample :
    (run [Op.add c9I] emptyTree).save = c9file ∧
    (run [Op.add c9I, Op.save, Op.clear, Op.load c9file] emptyTree).length = 1 ∧
    (run [Op.add c9I, Op.save, Op.clear, Op.load c9file] emptyTree).interval_tree.length = 1 ∧
    sumBuckets (run [Op.add c9I, Op.save, Op.clear, Op.load c9file] emptyTree).id_dict = 1 ∧
    (run [Op.add c9I, Op.save, Op.clear, Op.load c9file] emptyTree).uuid_dict.length = 0 := by
  refine ⟨by rfl, by rfl, by rfl, by rfl, by rfl⟩

/-- Claim C10: a remove whose probe matches nothing returns the empty list,
raises no error, and leaves the tree and both secondary indices (and the
whole index state) unchanged. -/
theorem c10_remove_no_match (st : MassIntervalTree) (P : ExclusionInterval)
    (h : st.query_by_interval P = []) :
    st.remove P = ([], st, true) := by
  have h0 : st.get_interval P = [] := by
    rw [MassIntervalTree.query_by_interval] at h
    exact List.map_eq_nil_iff.mp h
  rw [remove_def, h0]
  rfl

/-- One-interval index for the C10 witness. -/
def c10st : MassIntervalTree :=
  { interval_tree := [get_mass_interval c4I]
    id_dict := [(some "PEPTIDE", [get_mass_interval c4I])]
    uuid_dict := [(some 0, c4I)]
    next_uuid := 1 }

/-- Probe with an unknown label for the C10 witness. -/
def c10P : ExclusionInterval :=
  { interval_id := some "OTHER", charge := none, min_mass := none, max_mass := none,
    min_rt := none, max_rt := none, min_ook0 := none, max_ook0 := none,
    min_intensity := none, max_intensity := none }

theorem c10_witness : c10st.remove c10P = ([], c10st, true) :=
  c10_remove_no_match c10st c10P (by decide)
